import Mathlib

/-
Verification of the BVH_Viewer motion-capture pipeline.

Shallow embedding of the core components of the repository:
- the kinematic-derivative calculator (`calculate_kinematics` in
  bvh_visualizer_improved.py),
- the anatomical-angle calculator (`calculate_anatomical_angles`),
- the BVH hierarchy parser (`parse_bvh`),
- the forward-kinematics evaluator (`update_joint_matrices`),
- the capture/calibration state machine (`MocapConnector` in
  mocap_connector.py), and
- the recording buffer and BVH exporter (`RecordingManager` in
  recording_manager.py).

Machine floats are modelled as exact numbers: ℚ where the source only
adds, subtracts, multiplies and divides, and ℝ where it calls
transcendental functions (acos, asin, atan2, cos, sin, sqrt).  External
effects (file I/O, the device SDK, wall-clock time) are modelled as
explicit parameters: the current time is a ℚ argument `now`, the SDK
event queue is a list argument, and file writability is a Bool argument.
-/

namespace BVHViewer

/-- Rational 3-vectors, modelling numpy float arrays of length 3. -/
abbrev Vec3 := ℚ × ℚ × ℚ

/-- Componentwise subtraction of 3-vectors (numpy `a - b`). -/
def vsub (a b : Vec3) : Vec3 := (a.1 - b.1, a.2.1 - b.2.1, a.2.2 - b.2.2)

/-- Componentwise division of a 3-vector by a scalar (numpy `a / t`). -/
def vdiv (a : Vec3) (t : ℚ) : Vec3 := (a.1 / t, a.2.1 / t, a.2.2 / t)

/-- The zero 3-vector (`np.zeros(3)`). -/
def vzero : Vec3 := (0, 0, 0)

/-! ## Kinematic derivatives

`calculate_kinematics` (bvh_visualizer_improved.py lines 942-993) evaluates
every frame's world positions and then finite-differences them.  The
velocity/acceleration part (lines 970-992) loops over joint names and
computes each joint's series independently, with identical arithmetic per
joint; we embed the series of one joint.  The source seeds
`velocities_per_frame` and `accelerations_per_frame` with a single
all-zero entry and then, for `i` in `range(1, num_frames)`, appends
`v_i = (P_i - P_{i-1}) / frame_time` and
`a_i = (v_i - velocities_per_frame[i-1]) / frame_time`. -/

/-- One step of the finite-difference loop of `calculate_kinematics`:
given the previous frame's position and velocity, produce the velocity and
acceleration lists for the remaining frames. -/
def kinAux (frame_time : ℚ) : Vec3 → Vec3 → List Vec3 → List Vec3 × List Vec3
  | _, _, [] => ([], [])
  | prevPos, prevVel, p :: rest =>
    let v := vdiv (vsub p prevPos) frame_time
    let a := vdiv (vsub v prevVel) frame_time
    let r := kinAux frame_time p v rest
    (v :: r.1, a :: r.2)

/-- The velocity and acceleration series of `calculate_kinematics`
(bvh_visualizer_improved.py lines 970-992) for one joint, given the
evaluated world positions of that joint in every frame.  The source
initializes both series with one zero entry (even when there are no
frames) and differences from frame 1 on. -/
def calculate_kinematics (positions : List Vec3) (frame_time : ℚ) :
    List Vec3 × List Vec3 :=
  match positions with
  | [] => ([vzero], [vzero])
  | p0 :: rest =>
    let r := kinAux frame_time p0 vzero rest
    (vzero :: r.1, vzero :: r.2)

lemma kinAux_fst_get? (ft : ℚ) (rest : List Vec3) :
    ∀ (prevPos prevVel : Vec3) (i : ℕ), i < rest.length →
      (kinAux ft prevPos prevVel rest).1.get? i =
        some (vdiv (vsub (rest.getD i vzero) ((prevPos :: rest).getD i vzero)) ft) := by
  induction rest with
  | nil => intro _ _ i h; simp at h
  | cons p rest ih =>
    intro prevPos prevVel i h
    cases i with
    | zero => simp [kinAux]
    | succ j =>
      simp only [kinAux, List.get?]
      have hj : j < rest.length := by simpa using h
      rw [ih p (vdiv (vsub p prevPos) ft) j hj]
      rfl

lemma kinAux_snd_get? (ft : ℚ) (rest : List Vec3) :
    ∀ (prevPos prevVel : Vec3) (i : ℕ), i < rest.length →
      (kinAux ft prevPos prevVel rest).2.get? i =
        some (vdiv (vsub ((kinAux ft prevPos prevVel rest).1.getD i vzero)
          ((prevVel :: (kinAux ft prevPos prevVel rest).1).getD i vzero)) ft) := by
  induction rest with
  | nil => intro _ _ i h; simp at h
  | cons p rest ih =>
    intro prevPos prevVel i h
    cases i with
    | zero => simp [kinAux]
    | succ j =>
      have hj : j < rest.length := by simpa using h
      simp only [kinAux, List.get?, List.getD_cons_succ]
      rw [ih p _ j hj]

/-- Claim C1 (amended): for every sequence of evaluated positions and positive
frame_time, the kinematics calculator returns Velocity(0) = 0 and, for every
i ≥ 1, Velocity(i) = (P(i) - P(i-1)) / frame_time; likewise Acceleration(0) = 0
and Acceleration(i) = (Velocity(i) - Velocity(i-1)) / frame_time for i ≥ 1.
Only frame 0 is zero-initialized; finite-differencing starts at frame 1, not at
frame 2 as the original claim stated. -/
theorem calculate_kinematics_spec (ps : List Vec3) (ft : ℚ) (hft : 0 < ft) :
    (calculate_kinematics ps ft).1.get? 0 = some vzero ∧
    (calculate_kinematics ps ft).2.get? 0 = some vzero ∧
    ∀ i : ℕ, 1 ≤ i → i < ps.length →
      (calculate_kinematics ps ft).1.get? i =
        some (vdiv (vsub (ps.getD i vzero) (ps.getD (i-1) vzero)) ft) ∧
      (calculate_kinematics ps ft).2.get? i =
        some (vdiv (vsub ((calculate_kinematics ps ft).1.getD i vzero)
          ((calculate_kinematics ps ft).1.getD (i-1) vzero)) ft) := by
  refine ⟨?_, ?_, ?_⟩
  · cases ps <;> rfl
  · cases ps <;> rfl
  · intro i h1 hlen
    cases ps with
    | nil => simp at hlen
    | cons p0 rest =>
      cases i with
      | zero => omega
      | succ j =>
        have hj : j < rest.length := by simpa using hlen
        constructor
        · show (vzero :: (kinAux ft p0 vzero rest).1).get? (j+1) = _
          simp only [List.get?, Nat.succ_sub_one, List.getD_cons_succ]
          rw [kinAux_fst_get? ft rest p0 vzero j hj]
        · show (vzero :: (kinAux ft p0 vzero rest).2).get? (j+1) = _
          simp only [List.get?, Nat.succ_sub_one]
          rw [kinAux_snd_get? ft rest p0 vzero j hj]
          show _ = some (vdiv (vsub ((vzero :: (kinAux ft p0 vzero rest).1).getD (j+1) vzero)
            ((vzero :: (kinAux ft p0 vzero rest).1).getD j vzero)) ft)
          simp only [List.getD_cons_succ]

/-- Witness for `calculate_kinematics_spec` at a concrete three-frame input. -/
theorem calculate_kinematics_spec_witness :
    (0:ℚ) < 1 ∧
    (calculate_kinematics [((0:ℚ),0,0), (2,0,0), (4,0,0)] 1).1.get? 2 =
      some (vdiv (vsub ([((0:ℚ),0,0), (2,0,0), (4,0,0)].getD 2 vzero)
        ([((0:ℚ),0,0), (2,0,0), (4,0,0)].getD 1 vzero)) 1) :=
  ⟨by norm_num,
    ((calculate_kinematics_spec [((0:ℚ),0,0), (2,0,0), (4,0,0)] 1
      (by norm_num)).2.2 2 (by norm_num) (by decide)).1⟩

/-- Claim C1, counterexample: with positions P(0) = (0,0,0), P(1) = (1,0,0) and
frame_time 1 (positive), the code computes Velocity(1) = (1,0,0), not the zero
vector the claim demands for frame index 1. -/
theorem calculate_kinematics_vel1_counterexample :
    (0:ℚ) < 1 ∧
    (calculate_kinematics [((0:ℚ),0,0), (1,0,0)] 1).1.get? 1 = some (1,0,0) ∧
    ((1,0,0) : Vec3) ≠ vzero :=
  ⟨by norm_num, by norm_num [calculate_kinematics, kinAux, vdiv, vsub], by decide⟩

/-! ## Capture/calibration state machine

`MocapConnector` (mocap_connector.py).  The integer enum classes
`ConnectionState`, `CapturePhase` and `CalibrationState` are embedded as
integer constants with the source's values.  The SDK command codes
(`EMCPCommand`) come from the external mocap_api module; the sentinel
`current_command` (-1 when idle, a command code when one is in flight) is
embedded as an `Option Command`.  Wall-clock time (`time.time()`) is an
explicit ℚ argument `now`; the SDK event queue returned by
`poll_next_event` is an explicit event-list argument.  The external side
effects `queue_command`, the latest-frame slot, the fps counter, the
supported-pose list and the device-info fields are not part of the
state-machine state and are omitted.  `queue_command` is modelled as
always succeeding (the `except` fallbacks for a raising SDK are outside
the model). -/

namespace ConnectionState

def DISCONNECTED : Int := 0
def CONNECTING : Int := 1
def CONNECTED : Int := 2
def CAPTURING : Int := 3
def CALIBRATING : Int := 4
def ERR : Int := -1

end ConnectionState

namespace CapturePhase

def IDLE : Int := 0
def STABILIZING : Int := 1
def READY : Int := 2
def CALIBRATED : Int := 3

end CapturePhase

namespace CalibrationState

def NONE : Int := 0
def PREPARING : Int := 1
def COUNTDOWN : Int := 2
def IN_PROGRESS : Int := 3
def COMPLETED : Int := 4
def FAILED : Int := -1

end CalibrationState

/-- The three SDK command codes the connector issues (`EMCPCommand`). -/
inductive Command
  | startCapture
  | stopCapture
  | calibrateMotion
deriving DecidableEq, Repr

/-- Stabilization duration in seconds (`STABILIZE_DURATION`). -/
def STABILIZE_DURATION : ℚ := 20

/-- Calibration timeout in seconds (`CALIBRATION_TIMEOUT`). -/
def CALIBRATION_TIMEOUT : ℚ := 60

/-- The mutable state of `MocapConnector` relevant to the capture and
calibration state machine; field defaults mirror `__init__`. -/
structure MocapState where
  is_connected : Bool := false
  is_capturing : Bool := false
  current_command : Option Command := none
  connection_state : Int := ConnectionState.DISCONNECTED
  capture_phase : Int := CapturePhase.IDLE
  stabilize_start_time : Option ℚ := none
  stabilize_remaining : ℚ := 0
  calibration_state : Int := CalibrationState.NONE
  calibration_countdown : ℚ := 0
  calibration_progress : Int := 0
  calibration_pose_name : String := ""
  calibration_command_sent : Bool := false
  calibration_start_time : Option ℚ := none
deriving DecidableEq, Repr

/-- `MocapConnector.start_capture` (lines 153-169): rejected when not
connected or when another command is pending; otherwise queues the
start-capture command and records it in the sentinel. -/
def start_capture (s : MocapState) : Bool × MocapState :=
  if s.is_connected = false then (false, s)
  else if s.current_command ≠ none then (false, s)
  else (true, { s with current_command := some .startCapture })

/-- `MocapConnector.stop_capture` (lines 171-182): rejected only when not
connected; the pending-command sentinel is NOT checked before queueing. -/
def stop_capture (s : MocapState) : Bool × MocapState :=
  if s.is_connected = false then (false, s)
  else (true, { s with current_command := some .stopCapture })

/-- `MocapConnector.start_calibration` (lines 184-230): rejected when not
capturing, when the capture phase is not READY, when another command is
pending, or when a calibration command was already sent; otherwise queues
the calibrate command, records it, and enters the PREPARING state. -/
def start_calibration (now : ℚ) (s : MocapState) : Bool × MocapState :=
  if s.is_capturing = false then (false, s)
  else if s.capture_phase ≠ CapturePhase.READY then (false, s)
  else if s.current_command ≠ none then (false, s)
  else if s.calibration_command_sent then (false, s)
  else (true, { s with
    current_command := some .calibrateMotion,
    connection_state := ConnectionState.CALIBRATING,
    calibration_command_sent := true,
    calibration_start_time := some now,
    calibration_state := CalibrationState.PREPARING,
    calibration_progress := 0 })

/-- `MocapConnector._reset_calibration_state` (lines 549-560). -/
def reset_calibration_state (s : MocapState) : MocapState :=
  { s with
    calibration_state := CalibrationState.FAILED,
    calibration_command_sent := false,
    calibration_start_time := none,
    calibration_progress := 0,
    connection_state := ConnectionState.CAPTURING,
    current_command := none,
    capture_phase :=
      if s.capture_phase ≠ CapturePhase.CALIBRATED then CapturePhase.READY
      else s.capture_phase }

/-- Calibration-progress sub-stage of an `MCPReplay_Running` reply
(`MCPCalibrateMotionProgressStep`). -/
inductive CalStep
  | prepare
  | countdown (secs : ℚ)
  | progress (pct : Int)
  | unknown
deriving DecidableEq, Repr

/-- Reply kind of a `CommandReply` event (`MCPReplay`). -/
inductive Replay
  | response
  | running (pose : String) (step : CalStep)
  | result (ret_code : Int)
deriving DecidableEq, Repr

/-- Events delivered by `poll_next_event` (`MCPEventType`).  Avatar frame
payloads and device-info notifications only feed external consumers; only
the event kinds and the command-reply payloads drive the state machine. -/
inductive MCPEvent
  | avatarUpdated
  | notify
  | commandReply (r : Replay)
  | errorEvt
deriving DecidableEq, Repr

/-- `MocapConnector._handle_calibration_progress` (lines 232-294): records
the SDK-reported pose name and updates the calibration sub-state. -/
def handle_calibration_progress (pose : String) (step : CalStep) (s : MocapState) :
    MocapState :=
  let s1 := { s with calibration_pose_name := pose }
  match step with
  | .prepare => { s1 with
      calibration_state := CalibrationState.PREPARING,
      calibration_countdown := 0, calibration_progress := 0 }
  | .countdown secs => { s1 with
      calibration_state := CalibrationState.COUNTDOWN,
      calibration_countdown := secs, calibration_progress := 0 }
  | .progress pct => { s1 with
      calibration_state := CalibrationState.IN_PROGRESS,
      calibration_progress := pct }
  | .unknown => s1

/-- `MocapConnector._handle_command_result` (lines 487-536): applies the
result code to the pending command and clears the sentinel. -/
def handle_command_result (ret_code : Int) (s : MocapState) : MocapState :=
  let s1 :=
    if ret_code ≠ 0 then
      if s.current_command = some .calibrateMotion then
        { s with
          calibration_state := CalibrationState.FAILED,
          calibration_command_sent := false,
          calibration_start_time := none,
          connection_state := ConnectionState.CAPTURING }
      else s
    else
      if s.current_command = some .stopCapture then
        { s with is_capturing := false,
                 connection_state := ConnectionState.CONNECTED }
      else if s.current_command = some .calibrateMotion then
        { s with
          connection_state := ConnectionState.CAPTURING,
          calibration_state := CalibrationState.COMPLETED,
          calibration_progress := 100,
          capture_phase := CapturePhase.CALIBRATED,
          calibration_command_sent := false,
          calibration_start_time := none }
      else s
  { s1 with current_command := none }

/-- The `AvatarUpdated` branch of `MocapConnector.poll_and_update`
(lines 373-412): resets a pending start-capture sentinel, marks capture
started on the first confirmed frame, and advances the stabilization
phase once the stabilization duration has elapsed. -/
def handle_avatar_updated (now : ℚ) (s : MocapState) : MocapState :=
  let s1 :=
    if s.current_command = some .startCapture then { s with current_command := none }
    else s
  let s2 :=
    if s1.is_capturing = false ∧ s1.current_command = none then
      { s1 with
        is_capturing := true,
        connection_state := ConnectionState.CAPTURING,
        capture_phase := CapturePhase.STABILIZING,
        stabilize_start_time := some now,
        stabilize_remaining := STABILIZE_DURATION }
    else s1
  if s2.capture_phase = CapturePhase.STABILIZING ∧
     s2.current_command ≠ some .calibrateMotion then
    let elapsed := now - (s2.stabilize_start_time.getD 0)
    let s3 := { s2 with stabilize_remaining := max 0 (STABILIZE_DURATION - elapsed) }
    if elapsed ≥ STABILIZE_DURATION then
      { s3 with capture_phase := CapturePhase.READY }
    else s3
  else s2

/-- Dispatch of one polled event inside `MocapConnector.poll_and_update`
(lines 372-436). -/
def handle_event (now : ℚ) (s : MocapState) : MCPEvent → MocapState
  | .avatarUpdated => handle_avatar_updated now s
  | .notify => s
  | .commandReply .response => s
  | .commandReply (.running pose step) =>
      if s.current_command = some .calibrateMotion then
        handle_calibration_progress pose step s
      else s
  | .commandReply (.result code) => handle_command_result code s
  | .errorEvt => s

/-- `MocapConnector.poll_and_update` (lines 335-454): returns immediately
when not connected, otherwise processes every polled event and then runs
the calibration timeout check. -/
def poll_and_update (now : ℚ) (events : List MCPEvent) (s : MocapState) : MocapState :=
  if s.is_connected = false then s
  else
    let s1 := events.foldl (handle_event now) s
    if s1.calibration_command_sent ∧ s1.calibration_start_time.isSome then
      if now - s1.calibration_start_time.getD 0 ≥ CALIBRATION_TIMEOUT then
        reset_calibration_state s1
      else s1
    else s1

/-- Claim C2 (amended): while a command is outstanding, start-capture and
calibrate are rejected (False) with the connector state unchanged;
stop-capture, however, does not consult the sentinel: when connected it
proceeds, returns True, and overwrites the sentinel with the stop-capture
command. -/
theorem command_sentinel_gating (s : MocapState) (now : ℚ)
    (h : s.current_command ≠ none) :
    start_capture s = (false, s) ∧
    start_calibration now s = (false, s) ∧
    (s.is_connected = true →
      stop_capture s = (true, { s with current_command := some .stopCapture })) := by
  refine ⟨?_, ?_, ?_⟩
  · by_cases hc : s.is_connected = false <;> simp [start_capture, hc, h]
  · by_cases h1 : s.is_capturing = false
    · simp [start_calibration, h1]
    · by_cases h2 : s.capture_phase ≠ CapturePhase.READY <;>
        simp [start_calibration, h1, h2, h]
  · intro hc; simp [stop_capture, hc]

/-- A concrete connector state with a pending start-capture command, used
as a test state for the command-gating theorems. -/
def pendingCommandState : MocapState where
  is_connected := true
  is_capturing := true
  current_command := some .startCapture
  capture_phase := CapturePhase.READY

/-- A concrete connector state still in the STABILIZING capture phase. -/
def stabilizingState : MocapState where
  is_connected := true
  is_capturing := true
  capture_phase := CapturePhase.STABILIZING

/-- A concrete connector state with a calibration command pending since
time 0. -/
def pendingCalibrationState : MocapState where
  is_connected := true
  is_capturing := true
  current_command := some .calibrateMotion
  connection_state := ConnectionState.CALIBRATING
  capture_phase := CapturePhase.READY
  calibration_state := CalibrationState.PREPARING
  calibration_command_sent := true
  calibration_start_time := some 0

/-- Witness for `command_sentinel_gating` at a concrete connector state with
a pending start-capture command. -/
theorem command_sentinel_gating_witness :
    pendingCommandState.current_command ≠ none ∧
    (start_capture pendingCommandState = (false, pendingCommandState) ∧
     start_calibration 0 pendingCommandState = (false, pendingCommandState) ∧
     (pendingCommandState.is_connected = true →
       stop_capture pendingCommandState =
         (true, { pendingCommandState with current_command := some .stopCapture }))) :=
  ⟨by decide, command_sentinel_gating pendingCommandState 0 (by decide)⟩

/-- Claim C2, counterexample: in a connected state with a start-capture
command still outstanding, `stop_capture` returns True and mutates the
sentinel, instead of the rejection without side effects the claim demands
for every one of the three commands. -/
theorem stop_capture_ignores_sentinel_counterexample :
    pendingCommandState.current_command ≠ none ∧
    (stop_capture pendingCommandState).1 = true ∧
    (stop_capture pendingCommandState).2 ≠ pendingCommandState := by
  refine ⟨by decide, by decide, ?_⟩
  simp [stop_capture, pendingCommandState, MocapState.mk.injEq]

/-- Claim C4 (confirmed): whenever the capture phase is not READY, issuing
the calibrate command is rejected (False) and the connector state is
returned unchanged in every field. -/
theorem start_calibration_phase_guard (s : MocapState) (now : ℚ)
    (h : s.capture_phase ≠ CapturePhase.READY) :
    start_calibration now s = (false, s) := by
  by_cases h1 : s.is_capturing = false <;> simp [start_calibration, h1, h]

/-- Witness for `start_calibration_phase_guard` at a concrete state still in
the STABILIZING phase. -/
theorem start_calibration_phase_guard_witness :
    stabilizingState.capture_phase ≠ CapturePhase.READY ∧
    start_calibration 5 stabilizingState = (false, stabilizingState) :=
  ⟨by decide, start_calibration_phase_guard stabilizingState 5 (by decide)⟩

/-- Claim C5 (confirmed): with a calibration command pending (sent flag set
and a start time recorded) and the connector connected, a poll step in
which no event arrives and whose current time has reached the calibration
timeout sets the calibration state to FAILED, clears the command sentinel,
and sets the capture phase to READY unless it was already CALIBRATED. -/
theorem calibration_timeout_spec (s : MocapState) (now t : ℚ)
    (hconn : s.is_connected = true)
    (hsent : s.calibration_command_sent = true)
    (hstart : s.calibration_start_time = some t)
    (htime : now - t ≥ CALIBRATION_TIMEOUT) :
    (poll_and_update now [] s).calibration_state = CalibrationState.FAILED ∧
    (poll_and_update now [] s).current_command = none ∧
    (poll_and_update now [] s).capture_phase =
      (if s.capture_phase = CapturePhase.CALIBRATED then CapturePhase.CALIBRATED
       else CapturePhase.READY) := by
  have hle : CALIBRATION_TIMEOUT ≤ now - t := htime
  by_cases hp : s.capture_phase = CapturePhase.CALIBRATED <;>
    simp [poll_and_update, hconn, hsent, hstart, hle, reset_calibration_state, hp]

/-- Witness for `calibration_timeout_spec` at a concrete pending-calibration
state polled exactly at the timeout. -/
theorem calibration_timeout_spec_witness :
    pendingCalibrationState.is_connected = true ∧
    (60 : ℚ) - 0 ≥ CALIBRATION_TIMEOUT ∧
    (poll_and_update 60 [] pendingCalibrationState).calibration_state =
      CalibrationState.FAILED ∧
    (poll_and_update 60 [] pendingCalibrationState).current_command = none :=
  ⟨by decide, by norm_num [CALIBRATION_TIMEOUT],
   (calibration_timeout_spec pendingCalibrationState 60 0 (by decide) (by decide) rfl
     (by norm_num [CALIBRATION_TIMEOUT])).1,
   (calibration_timeout_spec pendingCalibrationState 60 0 (by decide) (by decide) rfl
     (by norm_num [CALIBRATION_TIMEOUT])).2.1⟩

/-! ## Recording buffer and BVH exporter

`RecordingManager` (recording_manager.py).  Wall-clock time is an explicit
ℚ argument.  Real-time joint data (positions and unit quaternions) is ℝ
valued, since the exporter feeds it through transcendental functions.
File output is modelled by a `writable` Bool argument and an `ExportDoc`
value standing for the written file's content; the textual rendering of
the hierarchy block and the fixed-precision number formatting are not
modelled. -/

/-- Per-joint recorded data: `{'position': (x,y,z), 'rotation': (w,x,y,z)}`;
defaults are the ones `record_frame` fills in. -/
structure JointData where
  position : ℝ × ℝ × ℝ := (0, 0, 0)
  rotation : ℝ × ℝ × ℝ × ℝ := (1, 0, 0, 0)

/-- Incoming per-joint data as handed to `record_frame`; either key may be
absent from the source dictionary. -/
structure JointDataIn where
  position : Option (ℝ × ℝ × ℝ) := none
  rotation : Option (ℝ × ℝ × ℝ × ℝ) := none

/-- `FrameData` (recording_manager.py lines 12-17). -/
structure FrameData where
  frame_index : ℕ
  timestamp : ℚ
  joints : List (String × JointData) := []

/-- `RecordingManager.JOINT_ORDER` (lines 25-33). -/
def JOINT_ORDER : List String :=
  ["Hips",
   "RightUpLeg", "RightLeg", "RightFoot",
   "LeftUpLeg", "LeftLeg", "LeftFoot",
   "Spine", "Spine1", "Spine2",
   "Neck", "Head",
   "RightShoulder", "RightArm", "RightForeArm", "RightHand",
   "LeftShoulder", "LeftArm", "LeftForeArm", "LeftHand"]

/-- `RecordingManager.FULL_JOINT_ORDER` (lines 36-54). -/
def FULL_JOINT_ORDER : List String :=
  ["Hips",
   "RightUpLeg", "RightLeg", "RightFoot",
   "LeftUpLeg", "LeftLeg", "LeftFoot",
   "Spine", "Spine1", "Spine2",
   "Neck", "Neck1", "Head",
   "RightShoulder", "RightArm", "RightForeArm", "RightHand",
   "RightHandThumb1", "RightHandThumb2", "RightHandThumb3",
   "RightInHandIndex", "RightHandIndex1", "RightHandIndex2", "RightHandIndex3",
   "RightInHandMiddle", "RightHandMiddle1", "RightHandMiddle2", "RightHandMiddle3",
   "RightInHandRing", "RightHandRing1", "RightHandRing2", "RightHandRing3",
   "RightInHandPinky", "RightHandPinky1", "RightHandPinky2", "RightHandPinky3",
   "LeftShoulder", "LeftArm", "LeftForeArm", "LeftHand",
   "LeftHandThumb1", "LeftHandThumb2", "LeftHandThumb3",
   "LeftInHandIndex", "LeftHandIndex1", "LeftHandIndex2", "LeftHandIndex3",
   "LeftInHandMiddle", "LeftHandMiddle1", "LeftHandMiddle2", "LeftHandMiddle3",
   "LeftInHandRing", "LeftHandRing1", "LeftHandRing2", "LeftHandRing3",
   "LeftInHandPinky", "LeftHandPinky1", "LeftHandPinky2", "LeftHandPinky3"]

/-- The mutable state of `RecordingManager`; defaults mirror `__init__`. -/
structure RecordingManager where
  recorded_frames : List FrameData := []
  is_recording : Bool := false
  record_start_time : ℚ := 0
  frame_time : ℚ := 1 / 60
  frame_counter : ℕ := 0
  target_fps : ℚ := 60

/-- `RecordingManager.start_recording` (lines 99-107). -/
def start_recording (s : RecordingManager) (fps : ℚ) (now : ℚ) : RecordingManager :=
  { s with
    recorded_frames := [],
    is_recording := true,
    record_start_time := now,
    target_fps := fps,
    frame_time := 1 / fps,
    frame_counter := 0 }

/-- `RecordingManager.stop_recording` (lines 109-115): clears the recording
flag and returns the number of buffered frames. -/
def stop_recording (s : RecordingManager) : ℕ × RecordingManager :=
  (s.recorded_frames.length, { s with is_recording := false })

/-- The value copy `record_frame` makes of the incoming joint dictionary
(lines 122-128), filling in default position and identity rotation. -/
def copy_joints (joints_data : List (String × JointDataIn)) : List (String × JointData) :=
  joints_data.map fun nd =>
    (nd.1, { position := nd.2.position.getD (0, 0, 0),
             rotation := nd.2.rotation.getD (1, 0, 0, 0) })

/-- `RecordingManager.record_frame` (lines 117-136): a no-op unless
recording; otherwise appends a copied frame with the next sequential index
and a capture-relative timestamp. -/
def record_frame (s : RecordingManager) (joints_data : List (String × JointDataIn))
    (now : ℚ) : RecordingManager :=
  if s.is_recording = false then s
  else
    { s with
      recorded_frames := s.recorded_frames ++
        [{ frame_index := s.frame_counter,
           timestamp := now - s.record_start_time,
           joints := copy_joints joints_data }],
      frame_counter := s.frame_counter + 1 }

/-- Model of `math.atan2`. -/
noncomputable def atan2 (y x : ℝ) : ℝ :=
  if 0 < x then Real.arctan (y / x)
  else if x < 0 then
    (if 0 ≤ y then Real.arctan (y / x) + Real.pi else Real.arctan (y / x) - Real.pi)
  else
    (if 0 < y then Real.pi / 2 else if y < 0 then -(Real.pi / 2) else 0)

/-- Model of `math.copysign`: the magnitude of `a` with the sign of `b`. -/
noncomputable def copysign (a b : ℝ) : ℝ := if b < 0 then -|a| else |a|

/-- Model of `math.degrees`. -/
noncomputable def degrees (r : ℝ) : ℝ := r * (180 / Real.pi)

/-- `RecordingManager.quaternion_to_euler_zxy` (lines 152-188): builds the
rotation matrix of the quaternion and extracts ZXY Euler angles in
degrees, with a gimbal-lock branch when |m21| saturates. -/
noncomputable def quaternion_to_euler_zxy (w x y z : ℝ) : ℝ × ℝ × ℝ :=
  let m00 := 1 - 2*y*y - 2*z*z
  let m01 := 2*x*y - 2*z*w
  let m10 := 2*x*y + 2*z*w
  let m11 := 1 - 2*x*x - 2*z*z
  let m20 := 2*x*z - 2*y*w
  let m21 := 2*y*z + 2*x*w
  let m22 := 1 - 2*x*x - 2*y*y
  if |m21| < 0.99999 then
    (degrees (atan2 m01 m11), degrees (Real.arcsin (-m21)), degrees (atan2 m20 m22))
  else
    (degrees (atan2 (-m10) m00), degrees (copysign (Real.pi / 2) (-m21)), degrees 0)

/-- The values one joint contributes to a BVH frame line
(`_generate_frame_line`, lines 233-252): root position for Hips, then the
ZXY Euler angles of the recorded quaternion; a joint absent from the
frame contributes the defaults. -/
noncomputable def joint_contribution (frame : FrameData) (joint_name : String) : List ℝ :=
  let jd := frame.joints.lookup joint_name
  let pos := match jd with | some d => d.position | none => (0, 0, 0)
  let rot := match jd with | some d => d.rotation | none => (1, 0, 0, 0)
  let euler := quaternion_to_euler_zxy rot.1 rot.2.1 rot.2.2.1 rot.2.2.2
  (if joint_name = "Hips" then [pos.1, pos.2.1, pos.2.2] else []) ++
    [euler.1, euler.2.1, euler.2.2]

/-- `RecordingManager._generate_frame_line` as a list of emitted values. -/
noncomputable def frame_line_values (frame : FrameData) (jte : List String) : List ℝ :=
  jte.flatMap (joint_contribution frame)

/-- The joint list `export_to_bvh` exports (lines 269-275): the canonical
order table filtered to the joints of the first buffered frame, with Hips
always retained. -/
def joints_to_export (s : RecordingManager) (include_fingers : Bool) : List String :=
  let base := if include_fingers then FULL_JOINT_ORDER else JOINT_ORDER
  match s.recorded_frames with
  | [] => base
  | f0 :: _ =>
    base.filter fun j => (f0.joints.map Prod.fst).contains j || j == "Hips"

/-- The content `export_to_bvh` writes: the hierarchy's joint list, the
MOTION header fields, and one line of values per buffered frame. -/
structure ExportDoc where
  joints : List String
  num_frames : ℕ
  frame_time : ℚ
  frame_lines : List (List ℝ)

/-- `RecordingManager.export_to_bvh` (lines 254-300): fails on an empty
buffer without writing; with a non-empty buffer, writes the document when
the destination is writable and fails otherwise (the `except` branch).
The manager state is never mutated. -/
noncomputable def export_to_bvh (s : RecordingManager) (include_fingers : Bool)
    (writable : Bool) : Bool × Option ExportDoc × RecordingManager :=
  if s.recorded_frames.isEmpty then (false, none, s)
  else if writable then
    (true,
     some { joints := joints_to_export s include_fingers,
            num_frames := s.recorded_frames.length,
            frame_time := s.frame_time,
            frame_lines := s.recorded_frames.map fun f =>
              frame_line_values f (joints_to_export s include_fingers) },
     s)
  else (false, none, s)

lemma record_fold_invariant (ds : List (List (String × JointDataIn) × ℚ)) :
    ∀ s : RecordingManager, s.is_recording = true →
      (ds.foldl (fun st dt => record_frame st dt.1 dt.2) s).is_recording = true ∧
      (ds.foldl (fun st dt => record_frame st dt.1 dt.2) s).recorded_frames.length =
        s.recorded_frames.length + ds.length := by
  induction ds with
  | nil => intro s h; simpa using h
  | cons d ds ih =>
    intro s h
    have hrec : record_frame s d.1 d.2 =
        { s with
          recorded_frames := s.recorded_frames ++
            [{ frame_index := s.frame_counter,
               timestamp := d.2 - s.record_start_time,
               joints := copy_joints d.1 }],
          frame_counter := s.frame_counter + 1 } := by
      simp [record_frame, h]
    obtain ⟨h1, h2⟩ := ih (record_frame s d.1 d.2) (by rw [hrec]; exact h)
    refine ⟨by simpa using h1, ?_⟩
    simp only [List.foldl_cons] at *
    rw [h2, hrec]
    simp
    omega

/-- Claim C6 (confirmed): when recording is inactive, `record_frame` is a
no-op; after `start_recording` followed by K `record_frame` calls,
`stop_recording` returns K; and after `stop_recording` every further
`record_frame` is a no-op. -/
theorem recording_buffer_spec (s : RecordingManager) (fps now t : ℚ)
    (ds : List (List (String × JointDataIn) × ℚ)) (d : List (String × JointDataIn))
    (h : s.is_recording = false) :
    record_frame s d t = s ∧
    (stop_recording (ds.foldl (fun st dt => record_frame st dt.1 dt.2)
       (start_recording s fps now))).1 = ds.length ∧
    (∀ d2 t2, record_frame
       (stop_recording (ds.foldl (fun st dt => record_frame st dt.1 dt.2)
         (start_recording s fps now))).2 d2 t2 =
       (stop_recording (ds.foldl (fun st dt => record_frame st dt.1 dt.2)
         (start_recording s fps now))).2) := by
  have hstart : (start_recording s fps now).is_recording = true := rfl
  obtain ⟨_, h2⟩ := record_fold_invariant ds (start_recording s fps now) hstart
  refine ⟨by simp [record_frame, h], ?_, ?_⟩
  · simpa [stop_recording, start_recording] using h2
  · intro d2 t2
    simp [record_frame, stop_recording]

/-- Witness for `recording_buffer_spec`: a fresh manager, two recorded
frames, and stop reporting 2. -/
theorem recording_buffer_spec_witness :
    ({} : RecordingManager).is_recording = false ∧
    (stop_recording ([(([] : List (String × JointDataIn)), (1:ℚ)), ([], 2)].foldl
       (fun st dt => record_frame st dt.1 dt.2)
       (start_recording {} 60 0))).1 =
      [(([] : List (String × JointDataIn)), (1:ℚ)), ([], 2)].length :=
  ⟨rfl, (recording_buffer_spec {} 60 0 0 [([], 1), ([], 2)] [] rfl).2.1⟩

/-- Claim C7 (confirmed): with an empty frame buffer `export_to_bvh` fails
without writing, with an unwritable destination it fails, and the manager
state is returned unchanged. -/
theorem export_failure_spec (s : RecordingManager) (inc w : Bool) :
    (s.recorded_frames = [] → export_to_bvh s inc w = (false, none, s)) ∧
    (w = false → (export_to_bvh s inc w).1 = false ∧
      (export_to_bvh s inc w).2.1 = none) ∧
    (export_to_bvh s inc w).2.2 = s := by
  refine ⟨?_, ?_, ?_⟩
  · intro he; simp [export_to_bvh, he]
  · intro hw; subst hw
    by_cases he : s.recorded_frames.isEmpty <;> simp [export_to_bvh, he]
  · by_cases he : s.recorded_frames.isEmpty
    · simp [export_to_bvh, he]
    · by_cases hw : w <;> simp [export_to_bvh, he, hw]

/-- Witness for `export_failure_spec`: exporting from a fresh (empty)
manager to an unwritable destination. -/
theorem export_failure_spec_witness :
    (({} : RecordingManager).recorded_frames = [] →
      export_to_bvh {} false false = (false, none, {})) ∧
    ((false = false) → (export_to_bvh ({} : RecordingManager) false false).1 = false ∧
      (export_to_bvh ({} : RecordingManager) false false).2.1 = none) ∧
    (export_to_bvh ({} : RecordingManager) false false).2.2 = {} :=
  export_failure_spec {} false false

lemma quaternion_to_euler_zxy_identity : quaternion_to_euler_zxy 1 0 0 0 = (0, 0, 0) := by
  unfold quaternion_to_euler_zxy
  norm_num [atan2, degrees, Real.arcsin_zero, Real.arctan_zero]

/-- A recorded frame whose joint dictionary is empty. -/
def emptyJointsFrame : FrameData where
  frame_index := 0
  timestamp := 0

/-- A manager holding exactly one recorded frame with no joints. -/
def oneFrameManager : RecordingManager where
  recorded_frames := [emptyJointsFrame]

/-- Claim C10 (confirmed): for a non-empty buffer the exported joint list
always contains Hips (even when the first frame has no Hips entry), and a
joint missing from a frame contributes the default position (0,0,0) for
Hips and Euler angles 0 0 0 from the identity quaternion, instead of
failing; the written document is built from exactly these pieces. -/
theorem export_hips_default_spec (s : RecordingManager) (inc : Bool)
    (f : FrameData) (j : String) (hne : s.recorded_frames ≠ []) :
    "Hips" ∈ joints_to_export s inc ∧
    (f.joints.lookup j = none →
      joint_contribution f j =
        if j = "Hips" then [(0:ℝ),0,0,0,0,0] else [(0:ℝ),0,0]) ∧
    (export_to_bvh s inc true).2.1 = some
      { joints := joints_to_export s inc,
        num_frames := s.recorded_frames.length,
        frame_time := s.frame_time,
        frame_lines := s.recorded_frames.map fun fr =>
          frame_line_values fr (joints_to_export s inc) } := by
  refine ⟨?_, ?_, ?_⟩
  · cases hr : s.recorded_frames with
    | nil => exact absurd hr hne
    | cons f0 rest =>
      have hbase : "Hips" ∈ (if inc then FULL_JOINT_ORDER else JOINT_ORDER) := by
        cases inc <;> decide
      simp only [joints_to_export, hr]
      exact List.mem_filter.mpr ⟨hbase, by simp⟩
  · intro hl
    by_cases hj : j = "Hips"
    · subst hj
      simp [joint_contribution, hl, quaternion_to_euler_zxy_identity]
    · simp [joint_contribution, hl, quaternion_to_euler_zxy_identity, hj]
  · cases hr : s.recorded_frames with
    | nil => exact absurd hr hne
    | cons f0 rest =>
      simp only [export_to_bvh, frame_line_values, hr]
      simp [joints_to_export, hr]

/-- Witness for `export_hips_default_spec`: one buffered frame with an empty
joint dictionary; Hips is still exported and the missing joint "Spine"
contributes zero Euler angles. -/
theorem export_hips_default_spec_witness :
    oneFrameManager.recorded_frames ≠ [] ∧
    "Hips" ∈ joints_to_export oneFrameManager false ∧
    (emptyJointsFrame.joints.lookup "Spine" = none) ∧
    joint_contribution emptyJointsFrame "Spine" =
      (if "Spine" = "Hips" then [(0:ℝ),0,0,0,0,0] else [(0:ℝ),0,0]) :=
  ⟨by simp [oneFrameManager],
   (export_hips_default_spec oneFrameManager false emptyJointsFrame "Spine"
     (by simp [oneFrameManager])).1,
   rfl,
   (export_hips_default_spec oneFrameManager false emptyJointsFrame "Spine"
     (by simp [oneFrameManager])).2.1 rfl⟩

/-! ## Anatomical angles

`calculate_anatomical_angles` (bvh_visualizer_improved.py lines 857-939)
consumes a joints dictionary whose entries carry an evaluated world
position (`get_world_position`), a parent back-reference and a child
list; it is embedded over that view of the `Joint` class.  Python's
insertion-ordered dict with key overwrite is embedded as an association
list with `dinsert`.  `round(x, 2)` is embedded with Mathlib's `round`
(the two differ only on exact half-way ties, where Python rounds to
even). -/

/-- The view of a `Joint` used by the anatomical-angle calculator. -/
structure AngleJoint where
  position : ℝ × ℝ × ℝ
  parent : Option String := none
  children : List String := []

/-- Componentwise subtraction of real 3-vectors. -/
def rsub (a b : ℝ × ℝ × ℝ) : ℝ × ℝ × ℝ :=
  (a.1 - b.1, a.2.1 - b.2.1, a.2.2 - b.2.2)

/-- Dot product of real 3-vectors (`np.dot`). -/
def rdot (a b : ℝ × ℝ × ℝ) : ℝ :=
  a.1 * b.1 + a.2.1 * b.2.1 + a.2.2 * b.2.2

/-- Euclidean norm of a real 3-vector (`np.linalg.norm`). -/
noncomputable def rnorm (a : ℝ × ℝ × ℝ) : ℝ :=
  Real.sqrt (a.1 * a.1 + a.2.1 * a.2.1 + a.2.2 * a.2.2)

/-- Rounding to two decimal places (`round(x, 2)`). -/
noncomputable def round2 (x : ℝ) : ℝ := (round (x * 100) : ℤ) / 100

/-- `get_vector_angle` (lines 860-887): the angle at `current` between the
vectors towards `parent` and towards `child`, in degrees rounded to two
decimals; `none` when a joint is missing or a vector is near zero. -/
noncomputable def get_vector_angle (joints : List (String × AngleJoint))
    (parent_joint_name current_joint_name child_joint_name : String) : Option ℝ :=
  match joints.lookup parent_joint_name, joints.lookup current_joint_name,
        joints.lookup child_joint_name with
  | some jp, some jc, some jch =>
    let vec_parent := rsub jp.position jc.position
    let vec_child := rsub jch.position jc.position
    if rnorm vec_parent > 1e-6 ∧ rnorm vec_child > 1e-6 then
      let cos_theta := rdot vec_parent vec_child / (rnorm vec_parent * rnorm vec_child)
      some (round2 (degrees (Real.arccos (min (max cos_theta (-1)) 1))))
    else none
  | _, _, _ => none

/-- `CUSTOM_JOINT_ORDER` (lines 996-1015), including its typos and the
duplicated LeftHandPinky2 entry, verbatim from the source. -/
def CUSTOM_JOINT_ORDER : List String :=
  ["Hips",
   "RightUpLeg", "RightLeg", "RightFoot",
   "LeftUpLeg", "LeftLeg", "LeftFoot",
   "Spine", "Spine1", "Spine2",
   "Neck", "Neck1", "Head",
   "RightShoulder", "RightArm", "RightForeArm", "RightHand",
   "RightHandThumb1", "RightHandThumb2", "RightHandThumb3",
   "RightinHandindex", "RightHandindex1", "RightHandindex2", "RightHandindex3",
   "RightlnHandMiddle", "RightHandMiddle1", "RightHandMiddle2", "RightHandMiddle3",
   "RightinHandRing", "RightHandRing1", "RightHandRing2", "RightHandRing3",
   "RightinHandPinky", "RightHandPinky1", "RightHandPinky2", "RightHandPinky3",
   "LeftShoulder", "LeftArm", "LeftForeArm", "LeftHand",
   "LeftHandThumb1", "LeftHandThumb2", "LeftHandThumb3",
   "LeftinHandindex", "LeftHandindex1", "LeftHandindex2", "LeftHandindex3",
   "LeftinHandMiddle", "LeftHandMiddle1", "LeftHandMiddle2", "LeftHandMiddle3",
   "LeftinHandRing", "LeftHandRing1", "LeftHandRing2", "LeftHandRing3",
   "LeftinHandPinky", "LeftHandPinky2", "LeftHandPinky2", "LeftHandPinky3",
   "Spine3"]

/-- Insertion-ordered dictionary assignment `d[k] = v`: overwrites in place
when the key exists, appends otherwise. -/
def dinsert (k : String) (v : Option ℝ) (d : List (String × Option ℝ)) :
    List (String × Option ℝ) :=
  if (d.lookup k).isSome then d.map fun kv => if kv.1 = k then (k, v) else kv
  else d ++ [(k, v)]

/-- One iteration of the adjacent-joint sweep of
`calculate_anatomical_angles` (lines 891-922): for a joint of
`CUSTOM_JOINT_ORDER` present in the dictionary that has a parent, one
entry per existing child, keyed `parent_joint`, keeping only non-`none`
angles. -/
noncomputable def sweep_step (joints : List (String × AngleJoint))
    (angles : List (String × Option ℝ)) (joint_name : String) :
    List (String × Option ℝ) :=
  match joints.lookup joint_name with
  | none => angles
  | some current_joint =>
    match current_joint.parent with
    | none => angles
    | some parent_joint_name =>
      current_joint.children.foldl (fun angles child_joint_name =>
        if (joints.lookup child_joint_name).isNone then angles
        else
          match get_vector_angle joints parent_joint_name joint_name
                  child_joint_name with
          | some v => dinsert (parent_joint_name ++ "_" ++ joint_name) (some v) angles
          | none => angles) angles

/-- The full adjacent-joint sweep over `CUSTOM_JOINT_ORDER`. -/
noncomputable def sweep_angles (joints : List (String × AngleJoint)) :
    List (String × Option ℝ) :=
  CUSTOM_JOINT_ORDER.foldl (sweep_step joints) []

/-- `calculate_anatomical_angles` (lines 857-939): the adjacent sweep, the
two fixed non-adjacent angles (which overwrite the sweep's entries under
the same keys even when `none`), and the final filter of `none` values. -/
noncomputable def calculate_anatomical_angles (joints : List (String × AngleJoint)) :
    List (String × ℝ) :=
  let a1 := sweep_angles joints
  let a2 := dinsert "Hips_Spine" (get_vector_angle joints "Hips" "Spine" "Spine2") a1
  let a3 := dinsert "Spine2_Neck" (get_vector_angle joints "Spine2" "Neck" "Head") a2
  a3.filterMap fun kv =>
    match kv.2 with
    | some v => some (kv.1, v)
    | none => none

lemma round2_bounds {x : ℝ} (h0 : 0 ≤ x) (h1 : x ≤ 180) :
    0 ≤ round2 x ∧ round2 x ≤ 180 := by
  rw [round2, round_eq]
  constructor
  · apply div_nonneg _ (by norm_num)
    have : (0:ℤ) ≤ ⌊x * 100 + 1 / 2⌋ := Int.floor_nonneg.mpr (by nlinarith)
    exact_mod_cast this
  · rw [div_le_iff (by norm_num : (0:ℝ) < 100)]
    have : ⌊x * 100 + 1 / 2⌋ ≤ (18000 : ℤ) := Int.floor_le_iff.mpr (by push_cast; nlinarith)
    calc ((⌊x * 100 + 1 / 2⌋ : ℤ) : ℝ) ≤ ((18000 : ℤ) : ℝ) := by exact_mod_cast this
    _ = 180 * 100 := by norm_num

lemma degrees_pi_eq : degrees Real.pi = 180 := by
  rw [degrees]; field_simp

lemma degrees_arccos_bounds (x : ℝ) :
    0 ≤ degrees (Real.arccos x) ∧ degrees (Real.arccos x) ≤ 180 := by
  have h0 := Real.arccos_nonneg x
  have h1 := Real.arccos_le_pi x
  constructor
  · rw [degrees]
    exact mul_nonneg h0 (by positivity)
  · rw [← degrees_pi_eq, degrees, degrees]
    exact mul_le_mul_of_nonneg_right h1 (by positivity)

lemma round2_deg_arccos_bounds (y : ℝ) :
    0 ≤ round2 (degrees (Real.arccos y)) ∧
      round2 (degrees (Real.arccos y)) ≤ 180 := by
  obtain ⟨a, b⟩ := degrees_arccos_bounds y
  exact round2_bounds a b

lemma get_vector_angle_bounds {joints : List (String × AngleJoint)} {p c ch : String}
    {v : ℝ} (h : get_vector_angle joints p c ch = some v) : 0 ≤ v ∧ v ≤ 180 := by
  unfold get_vector_angle at h
  cases hp : joints.lookup p <;> cases hc : joints.lookup c <;>
    cases hch : joints.lookup ch <;> simp [hp, hc, hch] at h
  obtain ⟨-, hv⟩ := h
  rw [← hv]
  exact round2_deg_arccos_bounds _

lemma dinsert_mem {kv : String × Option ℝ} {k : String} {v : Option ℝ}
    {d : List (String × Option ℝ)} (h : kv ∈ dinsert k v d) :
    kv = (k, v) ∨ kv ∈ d := by
  unfold dinsert at h
  split at h
  · obtain ⟨kv0, hkv0, heq⟩ := List.mem_map.mp h
    by_cases hk : kv0.1 = k
    · simp [hk] at heq; exact Or.inl heq.symm
    · simp [hk] at heq; exact Or.inr (heq ▸ hkv0)
  · rcases List.mem_append.mp h with h1 | h1
    · exact Or.inr h1
    · simp at h1; exact Or.inl h1

/-- Every value stored in an angles dictionary lies in [0, 180]. -/
def AnglesOk (d : List (String × Option ℝ)) : Prop :=
  ∀ kv ∈ d, ∀ v : ℝ, kv.2 = some v → 0 ≤ v ∧ v ≤ 180

lemma anglesOk_dinsert_of_gva {joints : List (String × AngleJoint)}
    {p c ch : String} {k : String} {d : List (String × Option ℝ)}
    (hd : AnglesOk d) :
    AnglesOk (dinsert k (get_vector_angle joints p c ch) d) := by
  intro kv hkv v hv
  rcases dinsert_mem hkv with h | h
  · subst h
    exact get_vector_angle_bounds (by simpa using hv)
  · exact hd kv h v hv

lemma sweep_step_ok {joints : List (String × AngleJoint)}
    {d : List (String × Option ℝ)} (hd : AnglesOk d) (name : String) :
    AnglesOk (sweep_step joints d name) := by
  unfold sweep_step
  cases hj : joints.lookup name with
  | none => exact hd
  | some current =>
    dsimp only
    cases hpar : current.parent with
    | none => exact hd
    | some parent_name =>
      dsimp only
      apply List.foldlRecOn
      · exact hd
      · intro d2 hd2 child _
        dsimp only
        by_cases hch : (joints.lookup child).isNone = true
        · rw [if_pos hch]; exact hd2
        · rw [if_neg hch]
          cases hv : get_vector_angle joints parent_name name child with
          | none => exact hd2
          | some v =>
            dsimp only
            intro kv hkv v2 hv2
            rcases dinsert_mem hkv with h | h
            · subst h
              simp only [Option.some.injEq] at hv2
              exact hv2 ▸ get_vector_angle_bounds hv
            · exact hd2 kv h v2 hv2

lemma sweep_angles_ok (joints : List (String × AngleJoint)) :
    AnglesOk (sweep_angles joints) := by
  unfold sweep_angles
  apply List.foldlRecOn
  · intro kv hkv; simp at hkv
  · intro d hd name _
    exact sweep_step_ok hd name

/-- A straight three-joint chain: collinear with the middle joint between
its neighbours, so the two vectors point in opposite directions. -/
def straightChainJoints : List (String × AngleJoint) :=
  [("RightUpLeg", { position := (0, 0, 0), children := ["RightLeg"] }),
   ("RightLeg", { position := (1, 0, 0), parent := some "RightUpLeg",
                  children := ["RightFoot"] }),
   ("RightFoot", { position := (2, 0, 0), parent := some "RightLeg" })]

/-- The same chain folded back on itself: the outer joints coincide. -/
def foldedChainJoints : List (String × AngleJoint) :=
  [("RightUpLeg", { position := (0, 0, 0), children := ["RightLeg"] }),
   ("RightLeg", { position := (1, 0, 0), parent := some "RightUpLeg",
                  children := ["RightFoot"] }),
   ("RightFoot", { position := (0, 0, 0), parent := some "RightLeg" })]

lemma round2_180 : round2 180 = 180 := by
  rw [round2]
  have h : ((180:ℝ) * 100) = ((18000 : ℤ) : ℝ) := by norm_num
  rw [h, round_intCast]
  norm_num

lemma round2_zero : round2 0 = 0 := by
  rw [round2]
  have h : ((0:ℝ) * 100) = ((0 : ℤ) : ℝ) := by norm_num
  rw [h, round_intCast]
  norm_num

lemma degrees_zero_eq : degrees 0 = 0 := by simp [degrees]

lemma gva_straight :
    get_vector_angle straightChainJoints "RightUpLeg" "RightLeg" "RightFoot" =
      some 180 := by
  have e1 : rsub ((0:ℝ),0,0) (1,0,0) = (-1,0,0) := by norm_num [rsub]
  have e2 : rsub ((2:ℝ),0,0) (1,0,0) = (1,0,0) := by norm_num [rsub]
  have e3 : rnorm ((-1:ℝ),0,0) = 1 := by norm_num [rnorm, Real.sqrt_one]
  have e4 : rnorm ((1:ℝ),0,0) = 1 := by norm_num [rnorm, Real.sqrt_one]
  have e5 : rdot ((-1:ℝ),0,0) ((1:ℝ),0,0) = -1 := by norm_num [rdot]
  calc get_vector_angle straightChainJoints "RightUpLeg" "RightLeg" "RightFoot"
      = (if rnorm (rsub ((0:ℝ),0,0) (1,0,0)) > 1e-6 ∧
            rnorm (rsub ((2:ℝ),0,0) (1,0,0)) > 1e-6 then
          some (round2 (degrees (Real.arccos (min (max
            (rdot (rsub ((0:ℝ),0,0) (1,0,0)) (rsub ((2:ℝ),0,0) (1,0,0)) /
              (rnorm (rsub ((0:ℝ),0,0) (1,0,0)) * rnorm (rsub ((2:ℝ),0,0) (1,0,0))))
            (-1)) 1))))
        else none) := rfl
    _ = some 180 := by
        rw [e1, e2, e3, e4, e5]
        norm_num [Real.arccos_neg_one, degrees_pi_eq, round2_180]

lemma gva_folded :
    get_vector_angle foldedChainJoints "RightUpLeg" "RightLeg" "RightFoot" =
      some 0 := by
  have e1 : rsub ((0:ℝ),0,0) (1,0,0) = (-1,0,0) := by norm_num [rsub]
  have e3 : rnorm ((-1:ℝ),0,0) = 1 := by norm_num [rnorm, Real.sqrt_one]
  have e5 : rdot ((-1:ℝ),0,0) ((-1:ℝ),0,0) = 1 := by norm_num [rdot]
  calc get_vector_angle foldedChainJoints "RightUpLeg" "RightLeg" "RightFoot"
      = (if rnorm (rsub ((0:ℝ),0,0) (1,0,0)) > 1e-6 ∧
            rnorm (rsub ((0:ℝ),0,0) (1,0,0)) > 1e-6 then
          some (round2 (degrees (Real.arccos (min (max
            (rdot (rsub ((0:ℝ),0,0) (1,0,0)) (rsub ((0:ℝ),0,0) (1,0,0)) /
              (rnorm (rsub ((0:ℝ),0,0) (1,0,0)) * rnorm (rsub ((0:ℝ),0,0) (1,0,0))))
            (-1)) 1))))
        else none) := rfl
    _ = some 0 := by
        rw [e1, e3, e5]
        norm_num [Real.arccos_one, degrees_zero_eq, round2_zero]

lemma sweep_straight :
    sweep_angles straightChainJoints = [("RightUpLeg_RightLeg", some 180)] := by
  have hRL : sweep_step straightChainJoints [] "RightLeg" =
      [("RightUpLeg_RightLeg", some 180)] := by
    calc sweep_step straightChainJoints [] "RightLeg"
        = (match get_vector_angle straightChainJoints "RightUpLeg" "RightLeg"
              "RightFoot" with
           | some v => dinsert ("RightUpLeg" ++ "_" ++ "RightLeg") (some v) []
           | none => []) := rfl
      _ = [("RightUpLeg_RightLeg", some 180)] := by rw [gva_straight]; rfl
  rw [sweep_angles,
    show CUSTOM_JOINT_ORDER =
      ["Hips", "RightUpLeg"] ++ ["RightLeg"] ++ CUSTOM_JOINT_ORDER.drop 3 from rfl,
    List.foldl_append, List.foldl_append,
    show List.foldl (sweep_step straightChainJoints) [] ["Hips", "RightUpLeg"] =
      [] from rfl,
    show List.foldl (sweep_step straightChainJoints) [] ["RightLeg"] =
      sweep_step straightChainJoints [] "RightLeg" from rfl,
    hRL]
  rfl

lemma sweep_folded :
    sweep_angles foldedChainJoints = [("RightUpLeg_RightLeg", some 0)] := by
  have hRL : sweep_step foldedChainJoints [] "RightLeg" =
      [("RightUpLeg_RightLeg", some 0)] := by
    calc sweep_step foldedChainJoints [] "RightLeg"
        = (match get_vector_angle foldedChainJoints "RightUpLeg" "RightLeg"
              "RightFoot" with
           | some v => dinsert ("RightUpLeg" ++ "_" ++ "RightLeg") (some v) []
           | none => []) := rfl
      _ = [("RightUpLeg_RightLeg", some 0)] := by rw [gva_folded]; rfl

  rw [sweep_angles,
    show CUSTOM_JOINT_ORDER =
      ["Hips", "RightUpLeg"] ++ ["RightLeg"] ++ CUSTOM_JOINT_ORDER.drop 3 from rfl,
    List.foldl_append, List.foldl_append,
    show List.foldl (sweep_step foldedChainJoints) [] ["Hips", "RightUpLeg"] =
      [] from rfl,
    show List.foldl (sweep_step foldedChainJoints) [] ["RightLeg"] =
      sweep_step foldedChainJoints [] "RightLeg" from rfl,
    hRL]
  rfl

lemma anatomical_angles_straight :
    calculate_anatomical_angles straightChainJoints =
      [("RightUpLeg_RightLeg", 180)] := by
  unfold calculate_anatomical_angles
  rw [sweep_straight]
  rfl

lemma anatomical_angles_folded :
    calculate_anatomical_angles foldedChainJoints =
      [("RightUpLeg_RightLeg", 0)] := by
  unfold calculate_anatomical_angles
  rw [sweep_folded]
  rfl

/-- Claim C3 (confirmed): the anatomical-angle calculator emits no entry for
a (parent, joint, child) triple in which any of the three joints is absent
or either difference vector has near-zero length; every emitted value lies
in [0, 180] degrees (rounded to two decimals); a straight chain with
collinear opposite-pointing vectors yields 180.0 and a fully folded chain
yields 0.0. -/
theorem anatomical_angles_spec (joints : List (String × AngleJoint)) :
    (∀ p c ch : String,
      joints.lookup p = none ∨ joints.lookup c = none ∨ joints.lookup ch = none →
      get_vector_angle joints p c ch = none) ∧
    (∀ (p c ch : String) {jp jc jch : AngleJoint},
      joints.lookup p = some jp → joints.lookup c = some jc →
      joints.lookup ch = some jch →
      (rnorm (rsub jp.position jc.position) ≤ 1e-6 ∨
       rnorm (rsub jch.position jc.position) ≤ 1e-6) →
      get_vector_angle joints p c ch = none) ∧
    (∀ kv ∈ calculate_anatomical_angles joints, 0 ≤ kv.2 ∧ kv.2 ≤ 180) ∧
    calculate_anatomical_angles straightChainJoints =
      [("RightUpLeg_RightLeg", 180)] ∧
    calculate_anatomical_angles foldedChainJoints =
      [("RightUpLeg_RightLeg", 0)] := by
  refine ⟨?_, ?_, ?_, anatomical_angles_straight, anatomical_angles_folded⟩
  · intro p c ch h
    cases hp : joints.lookup p <;> cases hc : joints.lookup c <;>
      cases hch : joints.lookup ch
    all_goals try (unfold get_vector_angle; rw [hp, hc, hch])
    all_goals rcases h with h | h | h <;> simp_all
  · intro p c ch jp jc jch hp hc hch h
    unfold get_vector_angle
    rw [hp, hc, hch]
    dsimp only
    rw [if_neg]
    rintro ⟨h1, h2⟩
    rcases h with h | h <;> simp only [gt_iff_lt] at h1 h2 <;> linarith
  · intro kv hkv
    unfold calculate_anatomical_angles at hkv
    have hok : AnglesOk (dinsert "Spine2_Neck"
        (get_vector_angle joints "Spine2" "Neck" "Head")
        (dinsert "Hips_Spine" (get_vector_angle joints "Hips" "Spine" "Spine2")
          (sweep_angles joints))) :=
      anglesOk_dinsert_of_gva (anglesOk_dinsert_of_gva (sweep_angles_ok joints))
    obtain ⟨kv0, hkv0, hf⟩ := List.mem_filterMap.mp hkv
    cases hv0 : kv0.2 with
    | none => rw [hv0] at hf; simp at hf
    | some v =>
      rw [hv0] at hf
      simp only [Option.some.injEq] at hf
      have hb := hok kv0 hkv0 v hv0
      rw [← hf]
      exact hb

/-- Witness for `anatomical_angles_spec`: on the straight chain, a triple
with a missing joint and a triple with a zero-length vector both produce
no entry, and the full calculator output is the single 180-degree angle. -/
theorem anatomical_angles_spec_witness :
    get_vector_angle straightChainJoints "Hips" "Spine" "Spine2" = none ∧
    get_vector_angle straightChainJoints "RightUpLeg" "RightLeg" "RightLeg" = none ∧
    calculate_anatomical_angles straightChainJoints =
      [("RightUpLeg_RightLeg", 180)] :=
  ⟨(anatomical_angles_spec straightChainJoints).1 "Hips" "Spine" "Spine2"
     (Or.inl rfl),
   (anatomical_angles_spec straightChainJoints).2.1 "RightUpLeg" "RightLeg"
     "RightLeg" rfl rfl rfl
     (Or.inr (by norm_num [rnorm, rsub, Real.sqrt_zero])),
   (anatomical_angles_spec straightChainJoints).2.2.2.1⟩

/-! ## BVH hierarchy parser

`parse_bvh` (bvh_visualizer_improved.py lines 703-795).  Input is the list
of file lines; numeric literals parse into ℚ (plain decimal notation, the
format BVH files use).  Python dictionaries (the joints registry and each
joint's channel-index map) are embedded as insertion-ordered association
lists with overwrite-in-place assignment (`pyinsert`); the object graph
(`stack[-1]` aliasing the dict entry, parents holding child references) is
embedded by storing names and updating the registry in place (`jupdate`).
Exceptions the source can raise on malformed input (IndexError on missing
tokens or an empty stack, ValueError from `int`/`float`) are `Except.error`;
only the file-open failure is caught by the source itself. -/

/-- Python dict assignment `d[k] = v`: overwrite in place or append. -/
def pyinsert {β : Type} (k : String) (v : β) (d : List (String × β)) :
    List (String × β) :=
  if (d.lookup k).isSome then d.map fun kv => if kv.1 = k then (k, v) else kv
  else d ++ [(k, v)]

/-- In-place mutation of the object registered under `k` (Python object
aliasing: `stack[-1]` and `joints[name]` are the same object). -/
def jupdate {β : Type} (k : String) (f : β → β) (d : List (String × β)) :
    List (String × β) :=
  d.map fun kv => if kv.1 = k then (k, f kv.2) else kv

/-- Whitespace tokenization of a character list: the maximal non-blank
runs, in order. -/
def splitWsAux : List Char → List Char → List (List Char)
  | [], cur => if cur = [] then [] else [cur.reverse]
  | c :: cs, cur =>
    if c.isWhitespace then
      if cur = [] then splitWsAux cs []
      else cur.reverse :: splitWsAux cs []
    else splitWsAux cs (c :: cur)

/-- `line.split()` (whitespace tokenization, dropping empty tokens). -/
def pysplit (s : String) : List String :=
  (splitWsAux s.toList []).map String.mk

/-- `line.strip()`. -/
def pystrip (s : String) : String :=
  String.mk (((s.toList.dropWhile Char.isWhitespace).reverse.dropWhile
    Char.isWhitespace).reverse)

/-- The value of a non-empty all-digit character run. -/
def strDigits? (cs : List Char) : Option ℕ :=
  if cs ≠ [] ∧ cs.all Char.isDigit then
    some (cs.foldl (fun n c => 10 * n + (c.toNat - 48)) 0)
  else none

/-- `int(s)` for the integer literals a BVH file carries. -/
def pyint? (s : String) : Option ℤ :=
  match s.toList with
  | '-' :: rest => (strDigits? rest).map fun n => -(n : ℤ)
  | cs => (strDigits? cs).map fun n => (n : ℤ)

/-- The value of an unsigned decimal literal (digits with an optional
fractional part). -/
def pyfloatPos? (cs : List Char) : Option ℚ :=
  match cs.splitOn '.' with
  | [a] => (strDigits? a).map fun n => (n : ℚ)
  | [a, b] =>
    match strDigits? a, strDigits? b with
    | some na, some nb => some ((na : ℚ) + (nb : ℚ) / ((10 : ℚ) ^ b.length))
    | _, _ => none
  | _ => none

/-- `float(s)` for plain decimal literals (optional sign, optional
fractional part). -/
def pyfloat? (s : String) : Option ℚ :=
  match s.toList with
  | '-' :: rest => (pyfloatPos? rest).map fun q => -q
  | '+' :: rest => pyfloatPos? rest
  | cs => pyfloatPos? cs

/-- All-floats parse of a token list (`[float(p) for p in parts]`). -/
def parseFloats (ws : List String) : Except Unit (List ℚ) :=
  match ws.mapM pyfloat? with
  | some l => .ok l
  | none => .error ()

/-- The `Joint` record as built by `parse_bvh` (class Joint, lines 669-700):
children in insertion order, global channel indices, the channel start
index, and the optional end site. -/
structure PJoint where
  name : String
  parent : Option String := none
  children : List String := []
  offset : List ℚ := [0, 0, 0]
  channels : List String := []
  channel_indices : List (String × ℕ) := []
  channel_start_index : ℕ := 0
  end_site : Option (List ℚ) := none
deriving DecidableEq, Repr

/-- `Joint.set_channels` (lines 693-697): records the tag list and start
index and assigns each tag's global index `channel_start_index + i` into
the channel-index dictionary. -/
def set_channels (channels : List String) (channel_start_index : ℕ) (j : PJoint) :
    PJoint :=
  { j with
    channels := channels,
    channel_start_index := channel_start_index,
    channel_indices := channels.enum.foldl
      (fun d p => pyinsert p.2 (channel_start_index + p.1) d) j.channel_indices }

/-- The mutable state of the hierarchy-parsing loop of `parse_bvh`
(lines 727-731). -/
structure ParseState where
  root_joint : Option String := none
  joints : List (String × PJoint) := []
  stack : List String := []
  channel_count : ℕ := 0
deriving DecidableEq, Repr

/-- The hierarchy loop of `parse_bvh` (lines 732-773): processes lines up
to `MOTION`, maintaining the joint stack and the running channel counter;
returns the state and the unconsumed lines.  The loop is driven by an
explicit step budget (`fuel`) so the recursion is structural; every
iteration consumes at least one line, so a budget of `lines.length`
(supplied by `parse_hierarchy`) is never exhausted. -/
def parse_hierarchy_fuel : ℕ → List String → ParseState →
    Except Unit (ParseState × List String)
  | _, [], st => .ok (st, [])
  | 0, _ :: _, _ => .error ()
  | fuel + 1, line :: rest, st =>
    if line = "MOTION" then .ok (st, line :: rest)
    else
      match pysplit line with
      | [] => parse_hierarchy_fuel fuel rest st
      | w :: ws =>
        if w = "HIERARCHY" then parse_hierarchy_fuel fuel rest st
        else if w = "ROOT" ∨ w = "JOINT" then
          match ws with
          | [] => .error ()
          | joint_name :: _ =>
            let new_joint : PJoint := { name := joint_name, parent := st.stack.head? }
            let root := if st.root_joint = none then some joint_name else st.root_joint
            let joints1 := pyinsert joint_name new_joint st.joints
            let joints2 :=
              match st.stack.head? with
              | some top =>
                jupdate top (fun pj => { pj with children := pj.children ++ [joint_name] })
                  joints1
              | none => joints1
            parse_hierarchy_fuel fuel rest
              { st with root_joint := root, joints := joints2,
                        stack := joint_name :: st.stack }
        else if w = "\x7b" then parse_hierarchy_fuel fuel rest st
        else if w = "OFFSET" then
          match st.stack.head? with
          | none => .error ()
          | some top => do
            let offset ← parseFloats ws
            let joints2 := jupdate top (fun pj => { pj with offset := offset }) st.joints
            parse_hierarchy_fuel fuel rest { st with joints := joints2 }
        else if w = "CHANNELS" then
          match ws with
          | [] => .error ()
          | nstr :: channels =>
            match pyint? nstr, st.stack.head? with
            | some num_channels, some top =>
              parse_hierarchy_fuel fuel rest
                { st with
                  joints := jupdate top (set_channels channels st.channel_count)
                    st.joints,
                  channel_count := st.channel_count + num_channels.toNat }
            | _, _ => .error ()
        else if w = "End" then
          match ws with
          | [] => .error ()
          | w2 :: _ =>
            if w2 = "Site" then
              match rest, st.stack.head? with
              | r1 :: offset_line :: rest2, some top => do
                let end_site ← parseFloats ((pysplit offset_line).drop 1)
                let joints2 :=
                  jupdate top (fun pj => { pj with end_site := some end_site }) st.joints
                match rest2 with
                | [] => .ok ({ st with joints := joints2 }, [])
                | _ :: rest3 => parse_hierarchy_fuel fuel rest3 { st with joints := joints2 }
              | _, _ => .error ()
            else parse_hierarchy_fuel fuel rest st
        else if w = "\x7d" then
          parse_hierarchy_fuel fuel rest { st with stack := st.stack.tail }
        else parse_hierarchy_fuel fuel rest st

/-- The hierarchy loop entry point: step budget `lines.length`. -/
def parse_hierarchy (lines : List String) (st : ParseState) :
    Except Unit (ParseState × List String) :=
  parse_hierarchy_fuel lines.length lines st

/-- The `MOTION` loop of `parse_bvh` (lines 775-794): reads the frame
count, the frame time and one float vector per remaining line. -/
def parse_motion (lines : List String) (motion : List (List ℚ)) (frames : ℤ)
    (frame_time : ℚ) : Except Unit (List (List ℚ) × ℤ × ℚ) :=
  match lines with
  | [] => .ok (motion, frames, frame_time)
  | line :: rest =>
    match pysplit line with
    | [] => parse_motion rest motion frames frame_time
    | w :: ws =>
      if w = "MOTION" then parse_motion rest motion frames frame_time
      else if w = "Frames:" then
        match ws with
        | [] => .error ()
        | nstr :: _ =>
          match pyint? nstr with
          | some n => parse_motion rest motion n frame_time
          | none => .error ()
      else if w = "Frame" then
        match ws with
        | [] => .error ()
        | w2 :: ws2 =>
          if w2 = "Time:" then
            match ws2 with
            | [] => .error ()
            | tstr :: _ =>
              match pyfloat? tstr with
              | some t => parse_motion rest motion frames t
              | none => .error ()
          else do
            let row ← parseFloats (w :: ws)
            parse_motion rest (motion ++ [row]) frames frame_time
      else do
        let row ← parseFloats (w :: ws)
        parse_motion rest (motion ++ [row]) frames frame_time

/-- `parse_bvh` (lines 703-795) on the stripped lines of the file: the
hierarchy section followed by the motion section. -/
def parse_bvh (lines : List String) :
    Except Unit (Option String × List (String × PJoint) × List (List ℚ) × ℤ × ℚ) := do
  let stripped := lines.map pystrip
  let (st, restLines) ← parse_hierarchy stripped {}
  let (motion, frames, frame_time) ← parse_motion restLines [] 0 0
  pure (st.root_joint, st.joints, motion, frames, frame_time)

/-- The global channel-index span of a parsed joint. -/
def jointSpan (j : PJoint) : List ℕ :=
  List.range' j.channel_start_index j.channels.length

/-- A BVH hierarchy whose CHANNELS lines declare fewer channels than they
list tags: syntactically well-formed enough to parse without error. -/
def overlapLines : List String :=
  ["HIERARCHY",
   "ROOT A", "\x7b", "OFFSET 0 0 0", "CHANNELS 1 Xrotation Yrotation",
   "JOINT B", "\x7b", "OFFSET 0 0 0", "CHANNELS 2 Zrotation Xrotation", "\x7d",
   "\x7d"]

/-- The joints dictionary `parse_bvh` produces for `overlapLines`. -/
def overlapJoints : List (String × PJoint) :=
  match parse_bvh overlapLines with
  | .ok r => r.2.1
  | .error _ => []

set_option maxHeartbeats 4000000 in
/-- Claim C8, counterexample: `parse_bvh` accepts `overlapLines`, whose
first CHANNELS line declares count 1 but lists two tags; the running
counter advances by the declared count while tag indices come from the
tag list, so joints A and B get overlapping spans [0, 1] and [1, 2]. -/
theorem parse_bvh_overlap_counterexample :
    (parse_bvh overlapLines).isOk = true ∧
    (overlapJoints.lookup "A").map jointSpan = some [0, 1] ∧
    (overlapJoints.lookup "B").map jointSpan = some [1, 2] ∧
    "A" ≠ "B" := by
  refine ⟨by decide, by decide, by decide, by decide⟩

/-- The standard layout of a BVH hierarchy section, checked line by line:
every `ROOT`/`JOINT` declares a fresh name, and every `CHANNELS` line
belongs to the most recently declared joint (no declaration in between),
is that joint's only one, lists exactly its declared count of distinct
tags, and `End Site` blocks have their four-line shape.  `canCh` records
whether the newest declared joint can still receive its `CHANNELS` line;
`seen` records the declared names; like the parse loop it runs on a step
budget never exhausted from `goodLayout`. -/
def goodLayoutAux : ℕ → List String → Bool → List String → Bool
  | _, [], _, _ => true
  | 0, _ :: _, _, _ => false
  | fuel + 1, line :: rest, canCh, seen =>
    if line = "MOTION" then true
    else
      match pysplit line with
      | [] => goodLayoutAux fuel rest canCh seen
      | w :: ws =>
        if w = "HIERARCHY" then goodLayoutAux fuel rest canCh seen
        else if w = "ROOT" ∨ w = "JOINT" then
          match ws with
          | [] => false
          | name :: _ =>
            if seen.contains name then false
            else goodLayoutAux fuel rest true (name :: seen)
        else if w = "\x7b" then goodLayoutAux fuel rest canCh seen
        else if w = "OFFSET" then goodLayoutAux fuel rest canCh seen
        else if w = "CHANNELS" then
          match ws with
          | [] => false
          | nstr :: tags =>
            if canCh ∧ pyint? nstr = some (tags.length : ℤ) ∧ tags.Nodup then
              goodLayoutAux fuel rest false seen
            else false
        else if w = "End" then
          match ws with
          | [] => false
          | w2 :: _ =>
            if w2 = "Site" then
              match rest with
              | _ :: _ :: rest2 =>
                match rest2 with
                | [] => true
                | _ :: rest3 => goodLayoutAux fuel rest3 canCh seen
              | _ => false
            else goodLayoutAux fuel rest canCh seen
        else if w = "\x7d" then goodLayoutAux fuel rest false seen
        else goodLayoutAux fuel rest canCh seen

/-- Standard layout of a whole BVH file (after line stripping). -/
def goodLayout (lines : List String) : Bool :=
  goodLayoutAux (lines.map pystrip).length (lines.map pystrip) false []

/-- The channel-index dictionary `set_channels` builds from an empty one. -/
def channelIndexList (tags : List String) (start : ℕ) : List (String × ℕ) :=
  tags.enum.foldl (fun d p => pyinsert p.2 (start + p.1) d) []

/-- Channel data of every parsed joint is consistent: distinct tags and a
channel-index dictionary assigning tag `i` the index `start + i`. -/
def ChannelsInv (joints : List (String × PJoint)) : Prop :=
  ∀ kv ∈ joints, kv.2.channels.Nodup ∧
    kv.2.channel_indices = channelIndexList kv.2.channels kv.2.channel_start_index

/-- Loop invariant of the hierarchy parse under a good layout: the joint
spans in declaration order tile `0 .. channel_count - 1`; when the newest
joint may still receive channels it is the stack top with empty channel
data; declared names are the registry keys, newest first, all distinct. -/
def ParseInv (st : ParseState) (canCh : Bool) (seen : List String) : Prop :=
  (st.joints.flatMap fun kv => jointSpan kv.2) = List.range st.channel_count ∧
  (canCh = true → ∃ top j, st.stack.head? = some top ∧
    st.joints.getLast? = some (top, j) ∧ j.channels = [] ∧ j.channel_indices = []) ∧
  st.joints.map Prod.fst = seen.reverse ∧ seen.Nodup

lemma lookup_append_none {β : Type} {k : String} {d e : List (String × β)}
    (hd : d.lookup k = none) : (d ++ e).lookup k = e.lookup k := by
  induction d with
  | nil => rfl
  | cons kv d ih =>
    simp only [List.lookup] at hd ⊢
    cases hbeq : (k == kv.1) with
    | true => simp [hbeq] at hd
    | false =>
      simp only [hbeq] at hd ⊢
      exact ih hd

lemma pyinsert_fresh {β : Type} {k : String} {v : β} {d : List (String × β)}
    (h : d.lookup k = none) : pyinsert k v d = d ++ [(k, v)] := by
  simp [pyinsert, h]

lemma lookup_eq_none_of_not_mem_keys {β : Type} {k : String} {d : List (String × β)}
    (h : k ∉ d.map Prod.fst) : d.lookup k = none := by
  induction d with
  | nil => rfl
  | cons kv d ih =>
    simp only [List.map_cons, List.mem_cons] at h
    push_neg at h
    simp only [List.lookup]
    have : (k == kv.1) = false := by
      simp only [beq_eq_false_iff_ne, ne_eq]
      exact h.1
    rw [this]
    exact ih h.2

lemma jupdate_keys {β : Type} (k : String) (f : β → β) (d : List (String × β)) :
    (jupdate k f d).map Prod.fst = d.map Prod.fst := by
  induction d with
  | nil => rfl
  | cons kv d ih =>
    simp only [jupdate, List.map_cons] at ih ⊢
    by_cases hk : kv.1 = k <;> simp [hk, ih]

lemma jupdate_spans {k : String} {f : PJoint → PJoint}
    (hf : ∀ j, (f j).channels = j.channels ∧
      (f j).channel_start_index = j.channel_start_index)
    (d : List (String × PJoint)) :
    ((jupdate k f d).flatMap fun kv => jointSpan kv.2) =
      d.flatMap fun kv => jointSpan kv.2 := by
  induction d with
  | nil => rfl
  | cons kv d ih =>
    simp only [jupdate, List.map_cons, List.flatMap_cons] at ih ⊢
    by_cases hk : kv.1 = k
    · simp only [hk, if_pos rfl]
      rw [ih]
      congr 1
      simp [jointSpan, (hf kv.2).1, (hf kv.2).2]
    · simp only [if_neg hk]
      rw [ih]

lemma jupdate_channels_inv {k : String} {f : PJoint → PJoint}
    (hf : ∀ j, (f j).channels = j.channels ∧
      (f j).channel_start_index = j.channel_start_index ∧
      (f j).channel_indices = j.channel_indices)
    {d : List (String × PJoint)} (hd : ChannelsInv d) :
    ChannelsInv (jupdate k f d) := by
  intro kv hkv
  unfold jupdate at hkv
  obtain ⟨kv0, hkv0, heq⟩ := List.mem_map.mp hkv
  by_cases hk : kv0.1 = k
  · rw [if_pos hk] at heq
    obtain ⟨h1, h2, h3⟩ := hf kv0.2
    obtain ⟨ha, hb⟩ := hd kv0 hkv0
    rw [← heq]
    exact ⟨by simpa [h1] using ha, by rw [h3, h1, h2]; exact hb⟩
  · rw [if_neg hk] at heq
    exact hd kv (heq ▸ hkv0)

lemma jupdate_getLast?_channels {k : String} {f : PJoint → PJoint}
    (hf : ∀ j, (f j).channels = j.channels ∧ (f j).channel_indices = j.channel_indices)
    {d : List (String × PJoint)} {top : String} {j : PJoint}
    (hd : d.getLast? = some (top, j)) :
    ∃ j2, (jupdate k f d).getLast? = some (top, j2) ∧
      j2.channels = j.channels ∧ j2.channel_indices = j.channel_indices := by
  unfold jupdate
  rw [List.getLast?_map, hd]
  by_cases hk : top = k
  · exact ⟨f j, by simp [hk], (hf j).1, (hf j).2⟩
  · exact ⟨j, by simp [hk], rfl, rfl⟩

lemma enumFrom_pyinsert_fold (tags : List String) :
    ∀ (n start : ℕ) (d : List (String × ℕ)), tags.Nodup →
      (∀ t ∈ tags, d.lookup t = none) →
      (tags.enumFrom n).foldl (fun d p => pyinsert p.2 (start + p.1) d) d =
        d ++ (tags.enumFrom n).map fun p => (p.2, start + p.1) := by
  induction tags with
  | nil => intro n start d _ _; simp
  | cons t ts ih =>
    intro n start d hnd hfresh
    simp only [List.enumFrom, List.foldl_cons, List.map_cons]
    rw [pyinsert_fresh (hfresh t (by simp))]
    rw [ih (n + 1) start (d ++ [(t, start + n)]) hnd.of_cons]
    · simp
    · intro t2 ht2
      rw [lookup_append_none (hfresh t2 (by simp [ht2]))]
      have hne : t2 ≠ t := by
        rintro rfl
        exact (List.nodup_cons.mp hnd).1 ht2
      have hb : (t2 == t) = false := beq_eq_false_iff_ne.mpr hne
      simp [List.lookup, hb]

lemma channelIndexList_eq (tags : List String) (start : ℕ) (h : tags.Nodup) :
    channelIndexList tags start = tags.enum.map fun p => (p.2, start + p.1) := by
  unfold channelIndexList
  rw [List.enum]
  rw [enumFrom_pyinsert_fold tags 0 start [] h (by intro t _; rfl)]
  simp

lemma lookup_enumFrom_map (tags : List String) :
    ∀ (n start i : ℕ), tags.Nodup → i < tags.length →
      ((tags.enumFrom n).map fun p => (p.2, start + p.1)).lookup (tags.getD i "") =
        some (start + (n + i)) := by
  induction tags with
  | nil => intro n start i _ h; simp at h
  | cons t ts ih =>
    intro n start i hnd hi
    cases i with
    | zero => simp [List.enumFrom, List.lookup]
    | succ i2 =>
      have hi2 : i2 < ts.length := by simpa using hi
      simp only [List.enumFrom, List.map_cons, List.getD_cons_succ, List.lookup]
      have hne : (ts.getD i2 "" == t) = false := by
        simp only [beq_eq_false_iff_ne, ne_eq]
        intro heq
        apply (List.nodup_cons.mp hnd).1
        rw [← heq]
        have : i2 < ts.length := hi2
        rw [List.getD_eq_getElem?_getD, List.getElem?_eq_getElem this]
        exact List.getElem_mem this
      simp only [hne]
      rw [ih (n + 1) start i2 hnd.of_cons hi2]
      simp only [Option.some.injEq]
      omega

lemma channelIndexList_lookup {tags : List String} {start : ℕ} (h : tags.Nodup)
    {i : ℕ} (hi : i < tags.length) :
    (channelIndexList tags start).lookup (tags.getD i "") = some (start + i) := by
  rw [channelIndexList_eq tags start h, List.enum]
  have := lookup_enumFrom_map tags 0 start i h hi
  simpa using this

lemma jupdate_not_mem {β : Type} {k : String} {f : β → β} {d : List (String × β)}
    (h : k ∉ d.map Prod.fst) : jupdate k f d = d := by
  induction d with
  | nil => rfl
  | cons kv d ih =>
    simp only [List.map_cons, List.mem_cons] at h
    push_neg at h
    simp only [jupdate, List.map_cons] at ih ⊢
    rw [if_neg (fun he => h.1 he.symm)]
    rw [show List.map (fun kv => if kv.1 = k then (k, f kv.2) else kv) d = d from ih h.2]

lemma jupdate_append {β : Type} (k : String) (f : β → β) (a b : List (String × β)) :
    jupdate k f (a ++ b) = jupdate k f a ++ jupdate k f b := by
  simp [jupdate]

lemma jupdate_last_eq {d : List (String × PJoint)} {top : String} {j : PJoint}
    (hlast : d.getLast? = some (top, j)) (hnd : (d.map Prod.fst).Nodup)
    (f : PJoint → PJoint) :
    jupdate top f d = d.dropLast ++ [(top, f j)] := by
  have hd : d.dropLast ++ [(top, j)] = d :=
    List.dropLast_append_getLast? (top, j) (by rw [hlast]; rfl)
  have hkeys : d.map Prod.fst = d.dropLast.map Prod.fst ++ [top] := by
    conv_lhs => rw [← hd]
    simp
  have htop : top ∉ d.dropLast.map Prod.fst := by
    rw [hkeys] at hnd
    have := List.disjoint_of_nodup_append hnd
    intro hmem
    exact this hmem (by simp)
  conv_lhs => rw [← hd]
  rw [jupdate_append, jupdate_not_mem htop]
  simp [jupdate]

lemma jointSpan_empty {j : PJoint} (h : j.channels = []) : jointSpan j = [] := by
  simp [jointSpan, h]

lemma ParseInv_jupdate {st : ParseState} {canCh : Bool} {seen : List String}
    (hinv : ParseInv st canCh seen) (k : String) {f : PJoint → PJoint}
    (hf : ∀ j, (f j).channels = j.channels ∧
      (f j).channel_start_index = j.channel_start_index ∧
      (f j).channel_indices = j.channel_indices) :
    ParseInv { st with joints := jupdate k f st.joints } canCh seen := by
  obtain ⟨i1, i2, i3, i4⟩ := hinv
  refine ⟨?_, ?_, ?_, i4⟩
  · show ((jupdate k f st.joints).flatMap fun kv => jointSpan kv.2) = _
    rw [jupdate_spans fun j => ⟨(hf j).1, (hf j).2.1⟩]
    exact i1
  · intro hc
    obtain ⟨top, j, hstk, hlast, hch1, hch2⟩ := i2 hc
    obtain ⟨j2, hlast2, hc2, hi2⟩ :=
      jupdate_getLast?_channels (k := k) (fun j => ⟨(hf j).1, (hf j).2.2⟩) hlast
    exact ⟨top, j2, hstk, hlast2, by rw [hc2, hch1], by rw [hi2, hch2]⟩
  · show (jupdate k f st.joints).map Prod.fst = _
    rw [jupdate_keys]
    exact i3

lemma parse_hierarchy_fuel_nil_eq (fuel : ℕ) (st : ParseState) :
    parse_hierarchy_fuel fuel [] st = .ok (st, []) := by
  cases fuel <;> rfl

lemma parse_hierarchy_fuel_cons_eq (fuel : ℕ) (line : String) (rest : List String)
    (st : ParseState) :
    parse_hierarchy_fuel (fuel + 1) (line :: rest) st =
      (if line = "MOTION" then .ok (st, line :: rest)
      else
        match pysplit line with
        | [] => parse_hierarchy_fuel fuel rest st
        | w :: ws =>
          if w = "HIERARCHY" then parse_hierarchy_fuel fuel rest st
          else if w = "ROOT" ∨ w = "JOINT" then
            match ws with
            | [] => .error ()
            | joint_name :: _ =>
              let new_joint : PJoint := { name := joint_name, parent := st.stack.head? }
              let root := if st.root_joint = none then some joint_name else st.root_joint
              let joints1 := pyinsert joint_name new_joint st.joints
              let joints2 :=
                match st.stack.head? with
                | some top =>
                  jupdate top (fun pj => { pj with children := pj.children ++ [joint_name] })
                    joints1
                | none => joints1
              parse_hierarchy_fuel fuel rest
                { st with root_joint := root, joints := joints2,
                          stack := joint_name :: st.stack }
          else if w = "\x7b" then parse_hierarchy_fuel fuel rest st
          else if w = "OFFSET" then
            match st.stack.head? with
            | none => .error ()
            | some top => do
              let offset ← parseFloats ws
              let joints2 := jupdate top (fun pj => { pj with offset := offset }) st.joints
              parse_hierarchy_fuel fuel rest { st with joints := joints2 }
          else if w = "CHANNELS" then
            match ws with
            | [] => .error ()
            | nstr :: channels =>
              match pyint? nstr, st.stack.head? with
              | some num_channels, some top =>
                parse_hierarchy_fuel fuel rest
                  { st with
                    joints := jupdate top (set_channels channels st.channel_count)
                      st.joints,
                    channel_count := st.channel_count + num_channels.toNat }
              | _, _ => .error ()
          else if w = "End" then
            match ws with
            | [] => .error ()
            | w2 :: _ =>
              if w2 = "Site" then
                match rest, st.stack.head? with
                | r1 :: offset_line :: rest2, some top => do
                  let end_site ← parseFloats ((pysplit offset_line).drop 1)
                  let joints2 :=
                    jupdate top (fun pj => { pj with end_site := some end_site }) st.joints
                  match rest2 with
                  | [] => .ok ({ st with joints := joints2 }, [])
                  | _ :: rest3 => parse_hierarchy_fuel fuel rest3 { st with joints := joints2 }
                | _, _ => .error ()
              else parse_hierarchy_fuel fuel rest st
          else if w = "\x7d" then
            parse_hierarchy_fuel fuel rest { st with stack := st.stack.tail }
          else parse_hierarchy_fuel fuel rest st) := rfl

lemma goodLayoutAux_nil_eq (fuel : ℕ) (canCh : Bool) (seen : List String) :
    goodLayoutAux fuel [] canCh seen = true := by
  cases fuel <;> rfl

lemma goodLayoutAux_cons_eq (fuel : ℕ) (line : String) (rest : List String)
    (canCh : Bool) (seen : List String) :
    goodLayoutAux (fuel + 1) (line :: rest) canCh seen =
      (if line = "MOTION" then true
      else
        match pysplit line with
        | [] => goodLayoutAux fuel rest canCh seen
        | w :: ws =>
          if w = "HIERARCHY" then goodLayoutAux fuel rest canCh seen
          else if w = "ROOT" ∨ w = "JOINT" then
            match ws with
            | [] => false
            | name :: _ =>
              if seen.contains name then false
              else goodLayoutAux fuel rest true (name :: seen)
          else if w = "\x7b" then goodLayoutAux fuel rest canCh seen
          else if w = "OFFSET" then goodLayoutAux fuel rest canCh seen
          else if w = "CHANNELS" then
            match ws with
            | [] => false
            | nstr :: tags =>
              if canCh ∧ pyint? nstr = some (tags.length : ℤ) ∧ tags.Nodup then
                goodLayoutAux fuel rest false seen
              else false
          else if w = "End" then
            match ws with
            | [] => false
            | w2 :: _ =>
              if w2 = "Site" then
                match rest with
                | _ :: _ :: rest2 =>
                  match rest2 with
                  | [] => true
                  | _ :: rest3 => goodLayoutAux fuel rest3 canCh seen
                | _ => false
              else goodLayoutAux fuel rest canCh seen
          else if w = "\x7d" then goodLayoutAux fuel rest false seen
          else goodLayoutAux fuel rest canCh seen) := rfl

set_option maxHeartbeats 3200000 in
lemma parse_hierarchy_spans :
    ∀ (n : ℕ) (lines : List String), lines.length ≤ n →
      ∀ (st : ParseState) (canCh : Bool) (seen : List String)
        (st2 : ParseState) (restL : List String),
        ParseInv st canCh seen → ChannelsInv st.joints →
        goodLayoutAux n lines canCh seen = true →
        parse_hierarchy_fuel n lines st = .ok (st2, restL) →
        (st2.joints.flatMap fun kv => jointSpan kv.2) = List.range st2.channel_count ∧
        ChannelsInv st2.joints := by
  intro n
  induction n with
  | zero =>
    intro lines hlen st canCh seen st2 restL hinv hch hgood hok
    have hnil : lines = [] := List.eq_nil_of_length_eq_zero (Nat.le_zero.mp hlen)
    subst hnil
    rw [parse_hierarchy_fuel_nil_eq] at hok
    simp only [Except.ok.injEq, Prod.mk.injEq] at hok
    obtain ⟨rfl, -⟩ := hok
    exact ⟨hinv.1, hch⟩
  | succ n ih =>
    intro lines hlen st canCh seen st2 restL hinv hch hgood hok
    cases lines with
    | nil =>
      rw [parse_hierarchy_fuel_nil_eq] at hok
      simp only [Except.ok.injEq, Prod.mk.injEq] at hok
      obtain ⟨rfl, -⟩ := hok
      exact ⟨hinv.1, hch⟩
    | cons line rest =>
      have hrest : rest.length ≤ n := by simpa using hlen
      rw [parse_hierarchy_fuel_cons_eq] at hok
      rw [goodLayoutAux_cons_eq] at hgood
      dsimp only at hok hgood
      by_cases hm : line = "MOTION"
      · rw [if_pos hm] at hok
        simp only [Except.ok.injEq, Prod.mk.injEq] at hok
        obtain ⟨rfl, -⟩ := hok
        exact ⟨hinv.1, hch⟩
      · rw [if_neg hm] at hok hgood
        cases hsp : pysplit line with
        | nil =>
          rw [hsp] at hok hgood
          dsimp only at hok hgood
          exact ih rest hrest st canCh seen st2 restL hinv hch hgood hok
        | cons w ws =>
          rw [hsp] at hok hgood
          dsimp only at hok hgood
          by_cases h1 : w = "HIERARCHY"
          · rw [if_pos h1] at hok hgood
            exact ih rest hrest st canCh seen st2 restL hinv hch hgood hok
          · rw [if_neg h1] at hok hgood
            by_cases h2 : w = "ROOT" ∨ w = "JOINT"
            · rw [if_pos h2] at hok hgood
              cases ws with
              | nil => simp at hgood
              | cons name ws2 =>
                dsimp only at hok hgood
                by_cases hseen : seen.contains name = true
                · rw [if_pos hseen] at hgood
                  simp at hgood
                · rw [if_neg hseen] at hgood
                  have hnotmem : name ∉ seen := fun hm2 =>
                    hseen (by simpa using hm2)
                  obtain ⟨i1, i2, i3, i4⟩ := hinv
                  have hfresh : st.joints.lookup name = none := by
                    apply lookup_eq_none_of_not_mem_keys
                    rw [i3]
                    simpa using hnotmem
                  set newJ : PJoint := { name := name, parent := st.stack.head? } with hnewJ
                  have hins : pyinsert name newJ st.joints = st.joints ++ [(name, newJ)] :=
                    pyinsert_fresh hfresh
                  rw [hins] at hok
                  set joints1 := st.joints ++ [(name, newJ)] with hjoints1
                  have hspans1 : (joints1.flatMap fun kv => jointSpan kv.2) =
                      List.range st.channel_count := by
                    rw [hjoints1, List.flatMap_append, i1]
                    simp [jointSpan, hnewJ]
                  have hkeys1 : joints1.map Prod.fst = (name :: seen).reverse := by
                    rw [hjoints1]
                    simp [i3]
                  have hlast1 : joints1.getLast? = some (name, newJ) :=
                    List.getLast?_concat _
                  have hch1 : ChannelsInv joints1 := by
                    intro kv hkv
                    rw [hjoints1] at hkv
                    rcases List.mem_append.mp hkv with hkv | hkv
                    · exact hch kv hkv
                    · simp only [List.mem_singleton] at hkv
                      subst hkv
                      exact ⟨List.nodup_nil, rfl⟩
                  have hnd1 : (name :: seen).Nodup := List.nodup_cons.mpr ⟨hnotmem, i4⟩
                  cases hstk : st.stack.head? with
                  | none =>
                    rw [hstk] at hok
                    dsimp only at hok
                    refine ih rest hrest _ true (name :: seen) st2 restL
                      ⟨hspans1, ?_, hkeys1, hnd1⟩ hch1 hgood hok
                    intro _
                    exact ⟨name, newJ, rfl, hlast1, rfl, rfl⟩
                  | some parent =>
                    rw [hstk] at hok
                    dsimp only at hok
                    have hf : ∀ j : PJoint,
                        ({ j with children := j.children ++ [name] } : PJoint).channels =
                          j.channels ∧
                        ({ j with children := j.children ++ [name] } : PJoint).channel_start_index =
                          j.channel_start_index ∧
                        ({ j with children := j.children ++ [name] } : PJoint).channel_indices =
                          j.channel_indices := fun j => ⟨rfl, rfl, rfl⟩
                    refine ih rest hrest _ true (name :: seen) st2 restL
                      ⟨?_, ?_, ?_, hnd1⟩ ?_ hgood hok
                    · dsimp only
                      rw [jupdate_spans fun j => ⟨(hf j).1, (hf j).2.1⟩]
                      exact hspans1
                    · intro _
                      obtain ⟨j2, hlast2, hc2, hi2⟩ :=
                        jupdate_getLast?_channels (k := parent)
                          (fun j => ⟨(hf j).1, (hf j).2.2⟩) hlast1
                      exact ⟨name, j2, rfl, hlast2, by rw [hc2], by rw [hi2]⟩
                    · dsimp only
                      rw [jupdate_keys]
                      exact hkeys1
                    · exact jupdate_channels_inv hf hch1
            · rw [if_neg h2] at hok hgood
              by_cases h3 : w = "\x7b"
              · rw [if_pos h3] at hok hgood
                exact ih rest hrest st canCh seen st2 restL hinv hch hgood hok
              · rw [if_neg h3] at hok hgood
                by_cases h4 : w = "OFFSET"
                · rw [if_pos h4] at hok hgood
                  cases hstk : st.stack.head? with
                  | none => rw [hstk] at hok; simp at hok
                  | some top =>
                    rw [hstk] at hok
                    dsimp only at hok
                    cases hpf : parseFloats ws with
                    | error e => rw [hpf] at hok; simp [Bind.bind, Except.bind] at hok
                    | ok offset =>
                      rw [hpf] at hok
                      simp only [Bind.bind, Except.bind] at hok
                      try dsimp only at hok
                      refine ih rest hrest _ canCh seen st2 restL
                        (ParseInv_jupdate ⟨hinv.1, hinv.2.1, hinv.2.2.1, hinv.2.2.2⟩ top
                          (f := fun pj => { pj with offset := offset })
                          fun j => ⟨rfl, rfl, rfl⟩)
                        (jupdate_channels_inv
                          (f := fun pj => { pj with offset := offset })
                          (fun j => ⟨rfl, rfl, rfl⟩) hch) hgood hok
                · rw [if_neg h4] at hok hgood
                  by_cases h5 : w = "CHANNELS"
                  · rw [if_pos h5] at hok hgood
                    cases ws with
                    | nil => simp at hgood
                    | cons nstr tags =>
                      dsimp only at hok hgood
                      by_cases hcond : canCh = true ∧
                          pyint? nstr = some (tags.length : ℤ) ∧ tags.Nodup
                      · obtain ⟨hcan, hnum, hnod⟩ := hcond
                        rw [if_pos ⟨hcan, hnum, hnod⟩] at hgood
                        obtain ⟨i1, i2, i3, i4⟩ := hinv
                        obtain ⟨top, j, hstk, hlast, hjch, hjidx⟩ := i2 hcan
                        rw [hnum, hstk] at hok
                        dsimp only at hok
                        have hkeysnd : (st.joints.map Prod.fst).Nodup := by
                          rw [i3]
                          exact List.nodup_reverse.mpr i4
                        have hsplit : st.joints.dropLast ++ [(top, j)] = st.joints :=
                          List.dropLast_append_getLast? (top, j) (by rw [hlast]; rfl)
                        have hupd : jupdate top (set_channels tags st.channel_count)
                            st.joints =
                            st.joints.dropLast ++
                              [(top, set_channels tags st.channel_count j)] :=
                          jupdate_last_eq hlast hkeysnd _
                        have hsetch : set_channels tags st.channel_count j =
                            { j with channels := tags,
                                     channel_start_index := st.channel_count,
                                     channel_indices :=
                                       channelIndexList tags st.channel_count } := by
                          rw [set_channels, hjidx]
                          rfl
                        have hdropspans : (st.joints.dropLast.flatMap fun kv =>
                            jointSpan kv.2) = List.range st.channel_count := by
                          have := i1
                          rw [← hsplit, List.flatMap_append] at this
                          simpa [jointSpan_empty hjch] using this
                        rw [hupd] at hok
                        have htonat : ((tags.length : ℤ)).toNat = tags.length := rfl
                        rw [htonat] at hok
                        refine ih rest hrest _ false seen st2 restL
                          ⟨?_, by simp, ?_, i4⟩ ?_ hgood hok
                        · show ((st.joints.dropLast ++
                              [(top, set_channels tags st.channel_count j)]).flatMap
                              fun kv => jointSpan kv.2) = List.range
                                (st.channel_count + tags.length)
                          rw [List.flatMap_append, hdropspans, hsetch]
                          simp only [List.flatMap_cons, List.flatMap_nil, List.append_nil]
                          rw [jointSpan]
                          simp only []
                          rw [List.range_eq_range', List.range_eq_range']
                          have hr := List.range'_append_1 0 st.channel_count tags.length
                          rw [Nat.zero_add] at hr
                          rw [Nat.add_comm tags.length st.channel_count] at hr
                          exact hr
                        · show (st.joints.dropLast ++
                              [(top, set_channels tags st.channel_count j)]).map
                              Prod.fst = seen.reverse
                          rw [← i3]
                          conv_rhs => rw [← hsplit]
                          simp [hsetch]
                        · intro kv hkv
                          rcases List.mem_append.mp hkv with hkv | hkv
                          · exact hch kv (by rw [← hsplit]; exact List.mem_append_left _ hkv)
                          · simp only [List.mem_singleton] at hkv
                            subst hkv
                            rw [hsetch]
                            exact ⟨hnod, rfl⟩
                      · rw [if_neg hcond] at hgood
                        simp at hgood
                  · rw [if_neg h5] at hok hgood
                    by_cases h6 : w = "End"
                    · rw [if_pos h6] at hok hgood
                      cases ws with
                      | nil => simp at hgood
                      | cons w2 ws2 =>
                        dsimp only at hok hgood
                        by_cases hw2 : w2 = "Site"
                        · rw [if_pos hw2] at hok hgood
                          cases rest with
                          | nil => simp at hgood
                          | cons r1 rest1 =>
                            cases rest1 with
                            | nil => simp at hgood
                            | cons r2 rest2 =>
                              dsimp only at hok hgood
                              cases hstk : st.stack.head? with
                              | none => rw [hstk] at hok; simp at hok
                              | some top =>
                                rw [hstk] at hok
                                dsimp only at hok
                                cases hpf : parseFloats ((pysplit r2).drop 1) with
                                | error e =>
                                  rw [hpf] at hok
                                  simp [Bind.bind, Except.bind] at hok
                                | ok es =>
                                  rw [hpf] at hok
                                  simp only [Bind.bind, Except.bind] at hok
                                  try dsimp only at hok
                                  cases rest2 with
                                  | nil =>
                                    simp only [Except.ok.injEq, Prod.mk.injEq] at hok
                                    obtain ⟨rfl, -⟩ := hok
                                    constructor
                                    · dsimp only
                                      rw [jupdate_spans
                                        (f := fun pj => { pj with end_site := some es })
                                        fun j => ⟨rfl, rfl⟩]
                                      exact hinv.1
                                    · exact jupdate_channels_inv
                                        (f := fun pj => { pj with end_site := some es })
                                        (fun j => ⟨rfl, rfl, rfl⟩) hch
                                  | cons r3 rest3 =>
                                    try dsimp only at hok hgood
                                    have hrest3 : rest3.length ≤ n := by
                                      simp only [List.length_cons] at hlen
                                      omega
                                    refine ih rest3 hrest3 _ canCh seen st2 restL
                                      (ParseInv_jupdate
                                        ⟨hinv.1, hinv.2.1, hinv.2.2.1, hinv.2.2.2⟩ top
                                        (f := fun pj => { pj with end_site := some es })
                                        fun j => ⟨rfl, rfl, rfl⟩)
                                      (jupdate_channels_inv
                                        (f := fun pj => { pj with end_site := some es })
                                        (fun j => ⟨rfl, rfl, rfl⟩) hch)
                                      hgood hok
                        · rw [if_neg hw2] at hok hgood
                          exact ih rest hrest st canCh seen st2 restL hinv hch hgood hok
                    · rw [if_neg h6] at hok hgood
                      by_cases h7 : w = "\x7d"
                      · rw [if_pos h7] at hok hgood
                        refine ih rest hrest { st with stack := st.stack.tail }
                          false seen st2 restL
                          ⟨hinv.1, by simp, hinv.2.2.1, hinv.2.2.2⟩ hch hgood hok
                      · rw [if_neg h7] at hok hgood
                        exact ih rest hrest st canCh seen st2 restL hinv hch hgood hok

/-- Claim C8 (amended): for every BVH file in the standard hierarchy layout
(each CHANNELS line lists exactly its declared count of distinct tags and
belongs to the joint declared last) that `parse_bvh` accepts, each joint's
i-th declared channel is assigned the global index
`channel_start_index + i`; the joint spans joined in declaration order are
exactly `0 .. total-1`, so no two joints' spans overlap and the indices
cover the flattened per-frame vector in declaration order. -/
theorem parse_bvh_channel_spans (lines : List String)
    (root : Option String) (joints : List (String × PJoint))
    (motion : List (List ℚ)) (fr : ℤ) (ft : ℚ)
    (hgood : goodLayout lines = true)
    (hok : parse_bvh lines = .ok (root, joints, motion, fr, ft)) :
    (∀ kv ∈ joints, ∀ i : ℕ, i < kv.2.channels.length →
      kv.2.channel_indices.lookup (kv.2.channels.getD i "") =
        some (kv.2.channel_start_index + i)) ∧
    (joints.flatMap fun kv => jointSpan kv.2) =
      List.range (joints.flatMap fun kv => jointSpan kv.2).length ∧
    List.Pairwise (fun a b => ∀ x ∈ jointSpan a.2, x ∉ jointSpan b.2) joints := by
  unfold parse_bvh at hok
  dsimp only at hok
  cases hp : parse_hierarchy (lines.map pystrip) {} with
  | error e =>
    rw [hp] at hok
    simp [Bind.bind, Except.bind] at hok
  | ok pr =>
    rw [hp] at hok
    simp only [Bind.bind, Except.bind] at hok
    cases hm2 : parse_motion pr.2 [] 0 0 with
    | error e =>
      rw [hm2] at hok
      simp [Except.bind] at hok
    | ok mr =>
      rw [hm2] at hok
      simp only [Pure.pure, Except.pure, Except.ok.injEq, Prod.mk.injEq] at hok
      obtain ⟨-, hjeq, -⟩ := hok
      have hini : ParseInv {} false [] :=
        ⟨rfl, fun h => absurd h (by simp), rfl, List.nodup_nil⟩
      have hchini : ChannelsInv (({} : ParseState).joints) :=
        fun kv hkv => absurd hkv (List.not_mem_nil kv)
      obtain ⟨hfl, hchi⟩ := parse_hierarchy_spans (lines.map pystrip).length
        (lines.map pystrip) le_rfl {} false [] pr.1 pr.2 hini hchini hgood hp
      rw [← hjeq]
      refine ⟨?_, ?_, ?_⟩
      · intro kv hkv i hi
        obtain ⟨hnod, hidx⟩ := hchi kv hkv
        rw [hidx]
        exact channelIndexList_lookup hnod hi
      · rw [hfl, List.length_range]
      · have hnd : ((pr.1.joints.flatMap fun kv => jointSpan kv.2)).Nodup := by
          rw [hfl]
          exact List.nodup_range _
        obtain ⟨-, hpair⟩ := List.nodup_flatMap.mp hnd
        exact hpair.imp fun h => fun x hx => h hx

/-- A BVH file in the standard layout: two joints, an end site, and one
motion frame. -/
def goodLines : List String :=
  ["HIERARCHY",
   "ROOT Hips", "\x7b", "OFFSET 0 0 0",
   "CHANNELS 6 Xposition Yposition Zposition Zrotation Xrotation Yrotation",
   "JOINT Spine", "\x7b", "OFFSET 0 10 0", "CHANNELS 3 Zrotation Xrotation Yrotation",
   "End Site", "\x7b", "OFFSET 0 5 0", "\x7d",
   "\x7d", "\x7d",
   "MOTION", "Frames: 1", "Frame Time: 0", "1 2 3 0 0 0 0 0 0"]

/-- The root name `parse_bvh` reports for `goodLines`. -/
def goodRoot : Option String :=
  match parse_bvh goodLines with
  | .ok r => r.1
  | .error _ => none

/-- The joints dictionary `parse_bvh` produces for `goodLines`. -/
def goodJoints : List (String × PJoint) :=
  match parse_bvh goodLines with
  | .ok r => r.2.1
  | .error _ => []

/-- The motion rows `parse_bvh` produces for `goodLines`. -/
def goodMotion : List (List ℚ) :=
  match parse_bvh goodLines with
  | .ok r => r.2.2.1
  | .error _ => []

/-- The frame count `parse_bvh` reports for `goodLines`. -/
def goodFrames : ℤ :=
  match parse_bvh goodLines with
  | .ok r => r.2.2.2.1
  | .error _ => 0

/-- The frame time `parse_bvh` reports for `goodLines`. -/
def goodFrameTime : ℚ :=
  match parse_bvh goodLines with
  | .ok r => r.2.2.2.2
  | .error _ => 0

set_option maxHeartbeats 4000000 in
/-- Witness for `parse_bvh_channel_spans` on the concrete file `goodLines`. -/
theorem parse_bvh_channel_spans_witness :
    goodLayout goodLines = true ∧
    ((goodJoints.flatMap fun kv => jointSpan kv.2) =
      List.range (goodJoints.flatMap fun kv => jointSpan kv.2).length ∧
     List.Pairwise (fun a b => ∀ x ∈ jointSpan a.2, x ∉ jointSpan b.2) goodJoints) :=
  ⟨by decide,
   (parse_bvh_channel_spans goodLines goodRoot goodJoints goodMotion goodFrames
     goodFrameTime (by decide) rfl).2⟩

/-! ### Forward kinematics: `update_joint_matrices` (bvh_visualizer_improved.py 802-854) -/

/-- 4x4 homogeneous transform over the reals. -/
abbrev Mat4 := Matrix (Fin 4) (Fin 4) ℝ

/-- A visualizer joint as mutated by `update_joint_matrices`: the parent is
recorded by name (the code reads `joint.parent.name`), children likewise, and
`matrix` is the world transform written by the evaluator. -/
structure FKJoint where
  name : String := ""
  offset : List ℝ := [0, 0, 0]
  channels : List String := []
  channel_indices : List (String × ℕ) := []
  parent : Option String := none
  children : List String := []
  matrix : Mat4 := 1

/-- Python list indexing `l[i]` with a possibly negative index: negative
indices count from the end, any out-of-range index raises (here: `none`). -/
def pyindexR (l : List ℝ) (i : ℤ) : Option ℝ :=
  if 0 ≤ i then l.get? i.toNat
  else if (-i).toNat ≤ l.length then l.get? (l.length - (-i).toNat) else none

/-- Whether `sub` is a prefix of `s`, on character lists. -/
def prefixChars : List Char → List Char → Bool
  | [], _ => true
  | _ :: _, [] => false
  | a :: as, b :: bs => a = b && prefixChars as bs

/-- Whether `sub` occurs as a contiguous substring of `s`. -/
def containsSub (sub : List Char) : List Char → Bool
  | [] => prefixChars sub []
  | c :: cs => prefixChars sub (c :: cs) || containsSub sub cs

/-- Python `'rotation' in channel`: substring containment. -/
def rotSub (channel : String) : Bool :=
  containsSub "rotation".toList channel.toList

/-- Python `np.radians`: degrees to radians. -/
noncomputable def radians (x : ℝ) : ℝ := x * (Real.pi / 180)

/-- The single-axis rotation matrix the evaluator builds: `R` starts as the
identity and is replaced when the axis character is X, Y or Z, using
`c = cos(angle_rad)` and `s = sin(angle_rad)`. -/
noncomputable def rotMat (axis : Char) (angle_rad : ℝ) : Mat4 :=
  let c := Real.cos angle_rad
  let s := Real.sin angle_rad
  if axis = 'X' then
    !![1, 0, 0, 0; 0, c, -s, 0; 0, s, c, 0; 0, 0, 0, 1]
  else if axis = 'Y' then
    !![c, 0, s, 0; 0, 1, 0, 0; -s, 0, c, 0; 0, 0, 0, 1]
  else if axis = 'Z' then
    !![c, -s, 0, 0; s, c, 0, 0; 0, 0, 1, 0; 0, 0, 0, 1]
  else 1

/-- The translation matrix built from `joint.offset[0..2]` in the non-root
branch (offsets are three-element lists throughout the program). -/
noncomputable def translateMat (o : List ℝ) : Mat4 :=
  !![1, 0, 0, o.getD 0 0; 0, 1, 0, o.getD 1 0; 0, 0, 1, o.getD 2 0; 0, 0, 0, 1]

/-- Root position for one tag:
`frame_data[joint.channel_indices.get(tag, -1)] if tag in joint.channels
else 0` — note the `-1` default makes a missing dictionary entry read the
LAST frame value via Python negative indexing. -/
def root_pos (frame_data : List ℝ) (joint : FKJoint) (tag : String) : Option ℝ :=
  if joint.channels.contains tag then
    pyindexR frame_data
      (match joint.channel_indices.lookup tag with
       | some i => (i : ℤ)
       | none => -1)
  else some 0

/-- One iteration of `for channel in joint.channels`: when `'rotation' in
channel`, read the axis character `channel[0]` and the angle
`frame_data[joint.channel_indices[channel]]` and right-multiply the
single-axis rotation matrix; otherwise leave the running matrix unchanged.
A missing dictionary key, empty channel name, or out-of-range frame index
raises (here: `none`). -/
noncomputable def rot_step (frame_data : List ℝ) (ci : List (String × ℕ))
    (m : Mat4) (channel : String) : Option Mat4 :=
  if rotSub channel then
    match channel.toList, ci.lookup channel with
    | [], _ => none
    | _ :: _, none => none
    | axis :: _, some i =>
      match frame_data.get? i with
      | none => none
      | some angle => some (m * rotMat axis (radians angle))
  else some m

/-- The matrix `update_joint_matrices` assigns to one joint: root joints get
a translation from their position channels, non-root joints get
`all_joints[joint.parent.name].matrix @ Translate(joint.offset)`; then each
declared channel is folded through `rot_step` in declaration order. -/
noncomputable def update_joint_matrix (joint : FKJoint) (frame_data : List ℝ)
    (all_joints : List (String × FKJoint)) : Option Mat4 := do
  let base ← match joint.parent with
    | none => do
        let x ← root_pos frame_data joint "Xposition"
        let y ← root_pos frame_data joint "Yposition"
        let z ← root_pos frame_data joint "Zposition"
        pure (!![1, 0, 0, x; 0, 1, 0, y; 0, 0, 1, z; 0, 0, 0, 1] : Mat4)
    | some pname => do
        let p ← all_joints.lookup pname
        pure (p.matrix * translateMat joint.offset)
  joint.channels.foldlM (rot_step frame_data joint.channel_indices) base

/-- The recursive evaluator as a worklist: compute the named joint's matrix,
store it in the registry (Python mutates the shared joint object, so the
parent lookup by name sees it), then descend into the children before the
remaining worklist — the same depth-first order as the source recursion.
Fuel only bounds the recursion depth; a registry miss raises. -/
noncomputable def update_joint_matrices_fuel :
    ℕ → List String → List ℝ → List (String × FKJoint) →
    Option (List (String × FKJoint))
  | 0, _, _, _ => none
  | _ + 1, [], _, reg => some reg
  | fuel + 1, name :: pending, frame_data, reg =>
    match reg.lookup name with
    | none => none
    | some joint =>
      match update_joint_matrix joint frame_data reg with
      | none => none
      | some m =>
        match update_joint_matrices_fuel fuel joint.children frame_data
            (jupdate name (fun j => { j with matrix := m }) reg) with
        | none => none
        | some reg2 => update_joint_matrices_fuel fuel pending frame_data reg2

/-- `update_joint_matrices(joint, frame_data, all_joints)` entered at a
joint name. -/
noncomputable def update_joint_matrices (name : String) (frame_data : List ℝ)
    (reg : List (String × FKJoint)) : Option (List (String × FKJoint)) :=
  update_joint_matrices_fuel ((reg.length + 1) * (reg.length + 1)) [name]
    frame_data reg

lemma rotSub_ne_nil {c : String} (h : rotSub c = true) : c.toList ≠ [] := by
  intro hnil
  rw [rotSub, hnil] at h
  simp [containsSub, prefixChars, String.toList] at h

lemma foldl_mul_eq {M : Type} [Monoid M] (l : List M) (a : M) :
    l.foldl (· * ·) a = a * l.prod := by
  induction l generalizing a with
  | nil => simp
  | cons b t ih => simp [ih, mul_assoc]

lemma rot_fold_spec (frame_data : List ℝ) (ci : List (String × ℕ))
    (angleOf : String → ℝ) :
    ∀ (chans : List String) (base : Mat4),
      (∀ c ∈ chans, rotSub c = true) →
      (∀ c ∈ chans, ∃ i : ℕ, ci.lookup c = some i ∧
        frame_data.get? i = some (angleOf c)) →
      chans.foldlM (rot_step frame_data ci) base =
        some (base *
          (chans.map fun c => rotMat (c.toList.headD ' ') (radians (angleOf c))).prod) := by
  intro chans
  induction chans with
  | nil => intro base _ _; simp [List.foldlM]
  | cons c cs ih =>
    intro base hrot hval
    have hc : rotSub c = true := hrot c (List.mem_cons_self c cs)
    obtain ⟨i, hi, hv⟩ := hval c (List.mem_cons_self c cs)
    have hne := rotSub_ne_nil hc
    obtain ⟨axis, rest, hax⟩ : ∃ a r, c.toList = a :: r := by
      cases hcl : c.toList with
      | nil => exact absurd hcl hne
      | cons a r => exact ⟨a, r, rfl⟩
    have hax2 : c.data = axis :: rest := hax
    have hstep : rot_step frame_data ci base c =
        some (base * rotMat axis (radians (angleOf c))) := by
      rw [rot_step, if_pos hc, hax, hi]
      dsimp only
      rw [hv]
    rw [List.foldlM_cons, hstep, Option.bind_eq_bind, Option.some_bind,
      ih _ (fun x hx => hrot x (List.mem_cons_of_mem c hx))
        (fun x hx => hval x (List.mem_cons_of_mem c hx))]
    simp [hax2, mul_assoc]

/-- Claim C9: for a non-root joint whose parent is in the registry and whose
channels are all rotation channels with resolvable indices and in-range
frame values, the evaluator computes the joint's transform as
`parent.matrix * Translate(joint.offset)` right-multiplied by the
single-axis rotation matrices (angles converted degrees to radians) in
exactly the declared channel order. -/
theorem update_joint_matrices_nonroot_spec
    (joint parent : FKJoint) (pname : String)
    (frame_data : List ℝ) (all_joints : List (String × FKJoint))
    (angleOf : String → ℝ)
    (hpar : joint.parent = some pname)
    (hlook : all_joints.lookup pname = some parent)
    (hrot : ∀ c ∈ joint.channels, rotSub c = true)
    (hval : ∀ c ∈ joint.channels, ∃ i : ℕ,
      joint.channel_indices.lookup c = some i ∧
      frame_data.get? i = some (angleOf c)) :
    update_joint_matrix joint frame_data all_joints =
      some (parent.matrix * translateMat joint.offset *
        (joint.channels.map fun c =>
          rotMat (c.toList.headD ' ') (radians (angleOf c))).prod) := by
  rw [update_joint_matrix, hpar]
  simp only [hlook, Option.bind_eq_bind, Option.some_bind, bind, pure]
  exact rot_fold_spec frame_data joint.channel_indices angleOf joint.channels
    (parent.matrix * translateMat joint.offset) hrot hval

/-- The parent joint of the C9 witness, with a nontrivial stored matrix. -/
noncomputable def wParent : FKJoint :=
  { name := "Hips", matrix := translateMat [1, 2, 3] }

/-- The non-root joint of the C9 witness: two rotation channels. -/
noncomputable def wJoint : FKJoint :=
  { name := "Spine", parent := some "Hips", offset := [0, 10, 0],
    channels := ["Xrotation", "Yrotation"],
    channel_indices := [("Xrotation", 0), ("Yrotation", 1)] }

/-- The frame vector of the C9 witness. -/
noncomputable def wFrame : List ℝ := [30, 45]

/-- The registry of the C9 witness. -/
noncomputable def wReg : List (String × FKJoint) :=
  [("Hips", wParent), ("Spine", wJoint)]

/-- The per-channel angles of the C9 witness. -/
noncomputable def wAngle (c : String) : ℝ := if c = "Xrotation" then 30 else 45

/-- Witness for `update_joint_matrices_nonroot_spec` at concrete inputs. -/
theorem update_joint_matrices_nonroot_spec_witness :
    update_joint_matrix wJoint wFrame wReg =
      some (wParent.matrix * translateMat wJoint.offset *
        (wJoint.channels.map fun c =>
          rotMat (c.toList.headD ' ') (radians (wAngle c))).prod) :=
  update_joint_matrices_nonroot_spec wJoint wParent "Hips" wFrame wReg wAngle
    rfl rfl (by decide)
    (by
      intro c hc
      have : c = "Xrotation" ∨ c = "Yrotation" := by
        simpa [wJoint] using hc
      rcases this with rfl | rfl
      · exact ⟨0, rfl, rfl⟩
      · exact ⟨1, rfl, rfl⟩)

end BVHViewer
